import Mathlib

/- Verification of the client-side aggregation / pivot / sort engine of the
Ordsøk single-page application.  The definitions below are a shallow
embedding of the TypeScript `evaluationTable` memo, its comparators, the
`handleSort` handler, the chart-series extractor and the table-cell
rendering (src/unnamed/part_000; the final revision of the component starts
at line 3069, and the earlier revision that bins unknown years as "Ukjent"
starts at line 420 — its variants carry a `V1` suffix here).

Modelling conventions:
* JavaScript objects / Maps are association lists in iteration order;
  `getD` models `obj[k] ?? 0`, `setKey` models `obj[k] = v` / `Map.set`
  (update in place, append when new).
* Counts are `Int` (the evaluation response carries integer counts) and
  percentages are `Rat`.
* `Number(s)` applied to a year string is `parseIntString`, which covers
  optionally-signed decimal integer literals and whitespace; any other
  string yields `none`, standing for `NaN` (`Number(undefined)` is also
  `NaN`, handled by `jsNumberOpt`).
* `Array.prototype.sort` (a stable sort) is modelled by Mathlib's stable
  `List.insertionSort` on the comparator's `≤ 0` relation; a comparator
  invocation that returns `NaN` is clamped to `0`, exactly as the
  ECMAScript `SortCompare` operation does.
* Template strings `${start}` are rendered by `numToString`, a faithful
  decimal renderer for integers.
* `localeCompare(·, 'nb')` is modelled as lexicographic comparison of
  per-character collation ranks in which æ, ø, å (and their upper-case
  forms) sort after every plain code point. -/

structure CorpusMeta where
  title : Option String
  authors : Option String
  year : Option String
deriving DecidableEq

abbrev TopicCounts := List (String × Int)

abbrev EvalData := List (String × TopicCounts)

abbrev MetaMap := List (String × CorpusMeta)

structure TableRow where
  id : String
  values : List (String × Int)
  total : Int
deriving DecidableEq

inductive ColKind
  | count
  | percent
deriving DecidableEq

structure ColumnDef where
  key : String
  label : String
  kind : ColKind
  year : Option String
deriving DecidableEq

inductive Dir
  | asc
  | desc
deriving DecidableEq

structure ViewOptions where
  sortKey : String
  sortDir : Dir
  totalThreshold : Int
  aggregateByYear : Bool
  yearBinSize : Rat
  aggregatePercent : Bool

structure EvalTable where
  mode : String
  rows : List TableRow
  columns : List ColumnDef
  totalRows : Nat
  yearTotals : Option (List (String × Int))
deriving DecidableEq

/-- Lookup with default 0, modelling `obj[k] ?? 0` on a number-valued record. -/
def getD : List (String × Int) → String → Int
  | [], _ => 0
  | p :: ps, k => if p.1 = k then p.2 else getD ps k

/-- Property assignment `obj[k] = v`: update in place, append when new. -/
def setKey : List (String × Int) → String → Int → List (String × Int)
  | [], k, v => [(k, v)]
  | p :: ps, k, v => if p.1 = k then (k, v) :: ps else p :: setKey ps k v

/-- Lookup in a metadata record, modelling `meta[docId]` (undefined ↦ none). -/
def lookupMeta : MetaMap → String → Option CorpusMeta
  | [], _ => none
  | p :: ps, k => if p.1 = k then some p.2 else lookupMeta ps k

/-- Digits of a decimal literal; `none` when empty or a non-digit occurs. -/
def parseNatDigits : List Char → Option Nat
  | [] => none
  | cs => cs.foldlM (fun acc c => if c.isDigit then some (acc * 10 + (c.toNat - 48)) else none) 0

/-- Strip leading and trailing whitespace. -/
def trimEnds (cs : List Char) : List Char :=
  ((cs.dropWhile Char.isWhitespace).reverse.dropWhile Char.isWhitespace).reverse

/-- Models the JavaScript `Number(s)` conversion of a string, restricted to
optionally-signed decimal integer literals (the shape of year strings in
this application); the empty / all-whitespace string converts to 0, any
other non-literal string yields `none`, standing for `NaN`. -/
def parseIntString (s : String) : Option Int :=
  match trimEnds s.data with
  | [] => some 0
  | c :: cs =>
    if c = '-' then (parseNatDigits cs).map (fun n => -(n : Int))
    else if c = '+' then (parseNatDigits cs).map (fun n => (n : Int))
    else (parseNatDigits (c :: cs)).map (fun n => (n : Int))

/-- Models `Number(x)` for `x : string | undefined` (`Number(undefined)` is NaN). -/
def jsNumberOpt : Option String → Option Int
  | none => none
  | some s => parseIntString s

/-- Decimal digit characters of a natural number, with explicit fuel. -/
def natDecimalAux : Nat → Nat → List Char
  | 0, _ => []
  | fuel + 1, n =>
    if n < 10 then [Nat.digitChar n] else natDecimalAux fuel (n / 10) ++ [Nat.digitChar (n % 10)]

/-- Decimal digit characters of a natural number. -/
def natDecimal (n : Nat) : List Char := natDecimalAux (n + 1) n

/-- Decimal rendering of an integer, as a character list. -/
def intDecimal (i : Int) : List Char :=
  if i < 0 then '-' :: natDecimal (-i).toNat else natDecimal i.toNat

/-- Models the JavaScript template rendering of an integer. -/
def numToString (i : Int) : String := ⟨intDecimal i⟩

/-- Collation rank of a character under the Norwegian locale model:
æ, ø, å (and upper-case forms) sort after every plain code point. -/
def collationRank (c : Char) : Nat :=
  if c = 'æ' then 1114112
  else if c = 'Æ' then 1114113
  else if c = 'ø' then 1114114
  else if c = 'Ø' then 1114115
  else if c = 'å' then 1114116
  else if c = 'Å' then 1114117
  else c.toNat

/-- Three-way lexicographic comparison of rank lists. -/
def listCmp : List Nat → List Nat → Int
  | [], [] => 0
  | [], _ :: _ => -1
  | _ :: _, [] => 1
  | a :: as, b :: bs => if a < b then -1 else if b < a then 1 else listCmp as bs

/-- Models `a.localeCompare(b, 'nb')`. -/
def nbCompare (s t : String) : Int :=
  listCmp (s.data.map collationRank) (t.data.map collationRank)

/-- Models the default (code-unit) string comparison of `Array.prototype.sort`. -/
def strCmp (s t : String) : Int :=
  listCmp (s.data.map Char.toNat) (t.data.map Char.toNat)

/-- Add a key to an insertion-ordered set, modelling `Set.add`. -/
def addKey (acc : List String) (k : String) : List String :=
  if k ∈ acc then acc else acc ++ [k]

/-- The word-group names of every document, in first-appearance order
(the iteration of `topicSet`). -/
def collectTopics (data : EvalData) : List String :=
  data.foldl (fun acc d => d.2.foldl (fun a p => addKey a p.1) acc) []

/-- Stable sort by an integer-valued comparator (`cmp a b ≤ 0` places `a` first). -/
def sortByICmp {α : Type} (cmp : α → α → Int) (l : List α) : List α :=
  @List.insertionSort α (fun a b => cmp a b ≤ 0)
    (fun a b => inferInstanceAs (Decidable (cmp a b ≤ 0))) l

/-- Stable sort by a rational-valued comparator. -/
def sortByRCmp {α : Type} (cmp : α → α → Rat) (l : List α) : List α :=
  @List.insertionSort α (fun a b => cmp a b ≤ 0)
    (fun a b => inferInstanceAs (Decidable (cmp a b ≤ 0))) l

/-- The topic universe: `Array.from(topicSet).sort()`. -/
def topicUniverse (data : EvalData) : List String :=
  sortByICmp strCmp (collectTopics data)

/-- Direction multiplier: `sortDir === 'asc' ? 1 : -1`. -/
def dirMult : Dir → Rat
  | .asc => 1
  | .desc => -1

/-- Bin-size coercion `Math.max(1, Math.floor(yearBinSize || 1))`
(`0` is falsy, so it is replaced by `1` before flooring). -/
def binSizeOf (x : Rat) : Int := max 1 (Rat.floor (if x = 0 then 1 else x))

/-- Year-bin label characters for a bin starting at `start`. -/
def mkLabelChars (binSize start : Int) : List Char :=
  if binSize > 1 then intDecimal start ++ '-' :: intDecimal (start + binSize - 1)
  else intDecimal start

/-- Year-bin label: the range string, or the literal year when the bin size is 1. -/
def mkLabel (binSize start : Int) : String := ⟨mkLabelChars binSize start⟩

/-- The `getYearLabel` helper of the final revision, returning both the label
and the recorded `sortValue` (the bin's starting year); `none` when the
document has no usable year. -/
def getYearInfo (mId : MetaMap) (binSize : Int) (docId : String) : Option (String × Int) :=
  match jsNumberOpt ((lookupMeta mId docId).bind (fun m => m.year)) with
  | none => none
  | some y =>
    let start := Int.fdiv y binSize * binSize
    some (mkLabel binSize start, start)

/-- The label returned by `getYearLabel` in the final revision. -/
def getYearLabel (mId : MetaMap) (binSize : Int) (docId : String) : Option String :=
  (getYearInfo mId binSize docId).map (fun p => p.1)

/-- One zeroed pivot row per topic: `topics.map((topic) => ({id, values: {}, total: 0}))`. -/
def initRows (uni : List String) : List TableRow :=
  uni.map (fun t => { id := t, values := [], total := 0 })

/-- One `(topic, value)` step of the pivot accumulation: add the count to the
topic row's year-bin value and total, and to the `yearTotals` accumulator —
skipping everything when the topic has no row. -/
def applyEntry (lab : String) (st : List TableRow × List (String × Int)) (tv : String × Int) :
    List TableRow × List (String × Int) :=
  if st.1.any (fun r => r.id == tv.1) then
    (st.1.map (fun r =>
       if r.id = tv.1 then
         { r with values := setKey r.values lab (getD r.values lab + tv.2),
                  total := r.total + tv.2 }
       else r),
     setKey st.2 lab (getD st.2 lab + tv.2))
  else st

/-- Accumulate every `(topic, value)` entry of one document under its year bin. -/
def applyDoc (lab : String) (st : List TableRow × List (String × Int)) (tc : TopicCounts) :
    List TableRow × List (String × Int) :=
  tc.foldl (applyEntry lab) st

/-- The pivot accumulation of the final revision: documents without a usable
year are skipped entirely. -/
def aggregateRows (mId : MetaMap) (binSize : Int) (uni : List String) (docs : EvalData) :
    List TableRow × List (String × Int) :=
  docs.foldl (fun st d =>
    match getYearInfo mId binSize d.1 with
    | none => st
    | some p => applyDoc p.1 st d.2) (initRows uni, [])

/-- The `yearBins` map of the final revision: one `(label, sortValue)` entry per
year bin of a usable document, in first-appearance order. -/
def yearBinsList (mId : MetaMap) (binSize : Int) (docs : EvalData) : List (String × Int) :=
  docs.foldl (fun acc d =>
    match getYearInfo mId binSize d.1 with
    | none => acc
    | some p => setKey acc p.1 p.2) []

/-- Year-bin labels in ascending `sortValue` order. -/
def yearLabelsOf (bins : List (String × Int)) : List String :=
  (sortByICmp (fun a b => a.2 - b.2) bins).map (fun p => p.1)

/-- The pivoted table's column definitions: one count column per year bin, plus
a paired percent column when the percent toggle is on. -/
def mkColumnDefs (showPercent : Bool) (yearLabels : List String) : List ColumnDef :=
  yearLabels.flatMap (fun lab =>
    { key := lab ++ "__count", label := lab, kind := .count, year := some lab } ::
    (if showPercent then
       [{ key := lab ++ "__percent", label := lab ++ " %", kind := .percent, year := some lab }]
     else []))

/-- The value the percent-column sort comparator computes for one row:
`denom > 0 ? (a.values[year] ?? 0) / denom : 0`. -/
def percentSortValue (yearTotals : List (String × Int)) (colYear : String) (r : TableRow) : Rat :=
  let denom := getD yearTotals colYear
  if denom > 0 then (getD r.values colYear : Rat) / (denom : Rat) else 0

/-- The pivoted-mode sort comparator of the final revision. -/
def topicsCmp (cols : List ColumnDef) (yearTotals : List (String × Int))
    (sortKey : String) (sortDir : Dir) (a b : TableRow) : Rat :=
  let direction := dirMult sortDir
  if sortKey = "row" then direction * (nbCompare a.id b.id : Rat)
  else if sortKey = "total" then direction * ((a.total : Rat) - (b.total : Rat))
  else
    match cols.find? (fun c => c.key == sortKey) with
    | some col =>
      match col.kind with
      | .count =>
        direction *
          ((getD a.values (col.year.getD "") : Rat) - (getD b.values (col.year.getD "") : Rat))
      | .percent =>
        direction *
          (percentSortValue yearTotals (col.year.getD "") a -
           percentSortValue yearTotals (col.year.getD "") b)
    | none => 0

/-- Field selection `meta?.[sortKey]` for the title / authors sort keys. -/
def metaFieldSel (key : String) (m : CorpusMeta) : Option String :=
  if key = "title" then m.title else m.authors

/-- Display string for a lexical sort key:
`metaLookup[id]?.[key] ?? corpusMetaByUrn[id]?.[key] ?? ''`. -/
def metaFieldOf (mId mUrn : MetaMap) (key docId : String) : String :=
  (((lookupMeta mId docId).bind (metaFieldSel key)).orElse
    (fun _ => (lookupMeta mUrn docId).bind (metaFieldSel key))).getD ""

/-- The year value used by the document-mode year sort:
`Number(metaLookup[id]?.year ?? corpusMetaByUrn[id]?.year ?? 0)`;
`none` stands for NaN (a present but non-numeric year string). -/
def yearNumOf (mId mUrn : MetaMap) (docId : String) : Option Int :=
  match ((lookupMeta mId docId).bind (fun m => m.year)).orElse
          (fun _ => (lookupMeta mUrn docId).bind (fun m => m.year)) with
  | none => some 0
  | some s => parseIntString s

/-- The document-mode sort comparator of the final revision.  A NaN year makes
the subtraction NaN, which `SortCompare` clamps to 0 — hence the catch-all
branch of the year case. -/
def docsCmp (mId mUrn : MetaMap) (topics : List String)
    (sortKey : String) (sortDir : Dir) (a b : TableRow) : Rat :=
  let direction := dirMult sortDir
  if sortKey = "dhlabid" ∨ sortKey = "row" then direction * (nbCompare a.id b.id : Rat)
  else if sortKey = "total" then direction * ((a.total : Rat) - (b.total : Rat))
  else if sortKey = "title" ∨ sortKey = "authors" then
    direction *
      (nbCompare (metaFieldOf mId mUrn sortKey a.id) (metaFieldOf mId mUrn sortKey b.id) : Rat)
  else if sortKey = "year" then
    match yearNumOf mId mUrn a.id, yearNumOf mId mUrn b.id with
    | some x, some y => direction * ((x : Rat) - (y : Rat))
    | _, _ => 0
  else if sortKey ∈ topics then
    direction * ((getD a.values sortKey : Rat) - (getD b.values sortKey : Rat))
  else 0

/-- Per-document total: `Object.values(topics).reduce((sum, v) => sum + v, 0)`. -/
def rowTotalOf (tc : TopicCounts) : Int :=
  tc.foldl (fun s p => s + p.2) 0

/-- The document-mode rows, one per entry of the evaluation result. -/
def docRows (data : EvalData) : List TableRow :=
  data.map (fun d => { id := d.1, values := d.2, total := rowTotalOf d.2 })

/-- The document-mode branch of `evaluationTable`. -/
def docsTable (data : EvalData) (mId mUrn : MetaMap) (opts : ViewOptions) : EvalTable :=
  let topics := topicUniverse data
  let rows := docRows data
  let sorted := sortByRCmp (docsCmp mId mUrn topics opts.sortKey opts.sortDir) rows
  let filtered :=
    if opts.totalThreshold > 0 then sorted.filter (fun r => r.total ≥ opts.totalThreshold)
    else sorted
  { mode := "docs", rows := filtered,
    columns := topics.map (fun t => { key := t, label := t, kind := .count, year := none }),
    totalRows := rows.length, yearTotals := none }

/-- The pivoted-by-year branch of `evaluationTable` (final revision). -/
def topicsTable (data : EvalData) (mId : MetaMap) (opts : ViewOptions) : EvalTable :=
  let topics := topicUniverse data
  let binSize := binSizeOf opts.yearBinSize
  let agg := aggregateRows mId binSize topics data
  let yearLabels := yearLabelsOf (yearBinsList mId binSize data)
  let cols := mkColumnDefs opts.aggregatePercent yearLabels
  let sorted := sortByRCmp (topicsCmp cols agg.2 opts.sortKey opts.sortDir) agg.1
  let filtered :=
    if opts.totalThreshold > 0 then sorted.filter (fun r => r.total ≥ opts.totalThreshold)
    else sorted
  { mode := "topics", rows := filtered, columns := cols,
    totalRows := agg.1.length, yearTotals := some agg.2 }

/-- The `evaluationTable` memo of the final revision (with data present). -/
def evaluationTable (data : EvalData) (mId mUrn : MetaMap) (opts : ViewOptions) : EvalTable :=
  if opts.aggregateByYear then topicsTable data mId opts else docsTable data mId mUrn opts

/-- Direction flip used when the same key is selected again. -/
def flipDir : Dir → Dir
  | .asc => .desc
  | .desc => .asc

/-- The `handleSort` click handler: returns the new `(sortKey, sortDir)` pair. -/
def handleSort (sortKey : String) (sortDir : Dir) (key : String) : String × Dir :=
  if sortKey = key then (sortKey, flipDir sortDir)
  else (key, if key = "title" ∨ key = "authors" ∨ key = "dhlabid" then .asc else .desc)

/-- The numeric value a table cell displays (the body of the row-render loop):
`row.values?.[column.year ?? column.key] ?? 0`, replaced by
`denom > 0 ? (value / denom) * 100 : 0` for a percent column in topics mode. -/
def cellValue (tbl : EvalTable) (row : TableRow) (col : ColumnDef) : Rat :=
  let value := getD row.values (col.year.getD col.key)
  if col.kind = .percent ∧ tbl.mode = "topics" then
    let denom := getD (tbl.yearTotals.getD []) (col.year.getD "")
    if denom > 0 then ((value : Rat) / (denom : Rat)) * 100 else 0
  else (value : Rat)

/-- One value of a chart series (the body of the `chartSeries` map):
`denom > 0 ? (raw / denom) * 100 : 0` in percent mode, else the raw count. -/
def chartCellValue (tbl : EvalTable) (showPercent : Bool) (row : TableRow) (colYear : String) :
    Rat :=
  let raw := getD row.values colYear
  if showPercent then
    let denom := getD (tbl.yearTotals.getD []) colYear
    if denom > 0 then ((raw : Rat) / (denom : Rat)) * 100 else 0
  else (raw : Rat)

/-- Definition following the spec text, for comparison: the displayed percent
value is `100 × count / yearTotals[bin]`, or 0 if the denominator is zero. -/
def specPercentValue (count denom : Int) : Rat :=
  if denom > 0 then 100 * (count : Rat) / (denom : Rat) else 0

/-- The `getYearLabel` of the first revision (line 440): a document without a
usable year is binned as "Ukjent" with `sortValue` −1 instead of being dropped. -/
def getYearInfoV1 (mId : MetaMap) (binSize : Int) (docId : String) : String × Int :=
  match jsNumberOpt ((lookupMeta mId docId).bind (fun m => m.year)) with
  | none => ("Ukjent", -1)
  | some y =>
    let start := Int.fdiv y binSize * binSize
    (mkLabel binSize start, start)

/-- The pivot accumulation of the first revision: every document contributes,
under its `getYearInfoV1` label. -/
def aggregateRowsV1 (mId : MetaMap) (binSize : Int) (uni : List String) (docs : EvalData) :
    List TableRow × List (String × Int) :=
  docs.foldl (fun st d => applyDoc (getYearInfoV1 mId binSize d.1).1 st d.2)
    (initRows uni, [])

/-- The `yearBins` map of the first revision. -/
def yearBinsListV1 (mId : MetaMap) (binSize : Int) (docs : EvalData) : List (String × Int) :=
  docs.foldl (fun acc d => setKey acc (getYearInfoV1 mId binSize d.1).1
    (getYearInfoV1 mId binSize d.1).2) []

/-- The ordered year-bin labels of the first revision's pivoted table. -/
def yearLabelsV1 (mId : MetaMap) (binSize : Int) (docs : EvalData) : List String :=
  yearLabelsOf (yearBinsListV1 mId binSize docs)

/-- The `yearTotals` accumulator of the first revision (percentage denominators). -/
def yearTotalsV1 (mId : MetaMap) (binSize : Int) (uni : List String) (docs : EvalData) :
    List (String × Int) :=
  (aggregateRowsV1 mId binSize uni docs).2

/- Basic facts about the pivot accumulation. -/

theorem applyEntry_fst_length (lab : String) (st : List TableRow × List (String × Int))
    (tv : String × Int) : (applyEntry lab st tv).1.length = st.1.length := by
  unfold applyEntry
  split <;> simp

theorem applyDoc_fst_length (lab : String) (st : List TableRow × List (String × Int))
    (tc : TopicCounts) : (applyDoc lab st tc).1.length = st.1.length := by
  unfold applyDoc
  induction tc generalizing st with
  | nil => rfl
  | cons p ps ih => rw [List.foldl_cons, ih, applyEntry_fst_length]

theorem aggregateRows_fst_length (mId : MetaMap) (binSize : Int) (uni : List String)
    (docs : EvalData) : (aggregateRows mId binSize uni docs).1.length = uni.length := by
  unfold aggregateRows
  have h : ∀ (st : List TableRow × List (String × Int)),
      (docs.foldl (fun st d =>
        match getYearInfo mId binSize d.1 with
        | none => st
        | some p => applyDoc p.1 st d.2) st).1.length = st.1.length := by
    induction docs with
    | nil => intro st; rfl
    | cons d ds ih =>
      intro st
      rw [List.foldl_cons, ih]
      cases getYearInfo mId binSize d.1 <;> simp [applyDoc_fst_length]
  rw [h, initRows, List.length_map]

/-- Claim C10: for every input and every view-option combination, the reported
`totalRows` equals the number of rows before threshold filtering — the number
of documents in by-document mode and the size of the topic universe in pivoted
mode — so it does not depend on `totalThreshold` even when the filter removes
rows (the displayed row count never exceeds it). -/
theorem c10_totalRows_prefilter (data : EvalData) (mId mUrn : MetaMap) (opts : ViewOptions) :
    (docsTable data mId mUrn opts).totalRows = data.length ∧
    (topicsTable data mId opts).totalRows = (topicUniverse data).length ∧
    (evaluationTable data mId mUrn opts).totalRows =
      (if opts.aggregateByYear then (topicUniverse data).length else data.length) ∧
    (docsTable data mId mUrn opts).rows.length ≤ (docsTable data mId mUrn opts).totalRows ∧
    (topicsTable data mId opts).rows.length ≤ (topicsTable data mId opts).totalRows := by
  have hdocs : (docsTable data mId mUrn opts).totalRows = data.length := by
    simp [docsTable, docRows]
  have htop : (topicsTable data mId opts).totalRows = (topicUniverse data).length := by
    simp [topicsTable, aggregateRows_fst_length]
  refine ⟨hdocs, htop, ?_, ?_, ?_⟩
  · unfold evaluationTable
    split <;> simp [hdocs, htop]
  · rw [hdocs]
    unfold docsTable
    simp only []
    split
    · exact le_trans (List.length_filter_le _ _)
        (by rw [sortByRCmp, List.length_insertionSort]; simp [docRows])
    · rw [sortByRCmp, List.length_insertionSort]; simp [docRows]
  · rw [htop]
    unfold topicsTable
    simp only []
    split
    · exact le_trans (List.length_filter_le _ _)
        (by rw [sortByRCmp, List.length_insertionSort, aggregateRows_fst_length])
    · rw [sortByRCmp, List.length_insertionSort, aggregateRows_fst_length]

/-- Claim C5 (amended): selecting the same key again flips the direction;
selecting a new key resets the direction to ascending exactly when the key is
`title`, `authors` or `dhlabid` — every other new key, including the pivoted
row-identity key `row`, resets to descending. -/
theorem c5_handleSort_defaults (cur : String) (d : Dir) (key : String) :
    (key = cur → handleSort cur d key = (cur, flipDir d)) ∧
    (key ≠ cur →
      handleSort cur d key =
        (key, if key = "title" ∨ key = "authors" ∨ key = "dhlabid" then Dir.asc else Dir.desc)) ∧
    (key ≠ cur → key = "row" → (handleSort cur d key).2 = Dir.desc) := by
  refine ⟨fun h => ?_, fun h => ?_, fun h hr => ?_⟩
  · simp [handleSort, h]
  · unfold handleSort
    rw [if_neg (fun hc => h hc.symm)]
  · subst hr
    unfold handleSort
    rw [if_neg (fun hc => h hc.symm)]
    decide

/-- Witness for C5 at concrete inputs: selecting `row` while sorting on
`total` yields descending; clicking `row` again flips to ascending. -/
theorem c5_witness :
    handleSort "total" Dir.desc "row" = ("row", Dir.desc) ∧
    handleSort "row" Dir.desc "row" = ("row", Dir.asc) := by
  constructor
  · have h := (c5_handleSort_defaults "total" Dir.desc "row").2.1 (by decide)
    rw [h]; decide
  · have h := (c5_handleSort_defaults "row" Dir.desc "row").1 (by decide)
    rw [h]; decide

/-- Counterexample to C5 as stated: the claim says the `row` key resets to
ascending, but `handleSort` resets it to descending (only `title`, `authors`
and `dhlabid` reset to ascending). -/
theorem c5_counterexample :
    (handleSort "total" Dir.desc "row").2 = Dir.desc ∧ Dir.desc ≠ Dir.asc := by decide

/- A fold whose step ignores the elements a filter would drop can be computed
on the filtered list. -/

theorem foldl_eq_foldl_filter {α β : Type} (p : α → Bool) (f : β → α → β)
    (hf : ∀ st a, p a = false → f st a = st) :
    ∀ (l : List α) (init : β), l.foldl f init = (l.filter p).foldl f init := by
  intro l
  induction l with
  | nil => intro init; rfl
  | cons a l ih =>
    intro init
    by_cases h : p a = true
    · rw [List.foldl_cons, List.filter_cons, if_pos h, List.foldl_cons, ih]
    · rw [List.foldl_cons, hf init a (by simp at h; simp [h]), List.filter_cons, if_neg h, ih]

/-- Claim C3: in pivoted-by-year mode a document whose metadata year is missing
or non-numeric contributes nothing — the pivot accumulation (topic-row values,
row totals and the `yearTotals` denominators) and the year-bin collection are
unchanged when such documents are removed, and `getYearLabel` assigns them no
bin at all (in particular not an "Unknown" bin). -/
theorem c3_unusable_year_dropped (mId : MetaMap) (binSize : Int) (uni : List String)
    (docs : EvalData) :
    aggregateRows mId binSize uni docs =
      aggregateRows mId binSize uni
        (docs.filter (fun d => (getYearInfo mId binSize d.1).isSome)) ∧
    yearBinsList mId binSize docs =
      yearBinsList mId binSize
        (docs.filter (fun d => (getYearInfo mId binSize d.1).isSome)) ∧
    ∀ docId, jsNumberOpt ((lookupMeta mId docId).bind (fun m => m.year)) = none →
      getYearLabel mId binSize docId = none := by
  refine ⟨?_, ?_, ?_⟩
  · unfold aggregateRows
    exact foldl_eq_foldl_filter _ _
      (fun st d h => by
        have : getYearInfo mId binSize d.1 = none := by
          cases hg : getYearInfo mId binSize d.1 with
          | none => rfl
          | some p => rw [hg] at h; simp at h
        simp [this]) docs _
  · unfold yearBinsList
    exact foldl_eq_foldl_filter _ _
      (fun st d h => by
        have : getYearInfo mId binSize d.1 = none := by
          cases hg : getYearInfo mId binSize d.1 with
          | none => rfl
          | some p => rw [hg] at h; simp at h
        simp [this]) docs _
  · intro docId h
    simp [getYearLabel, getYearInfo, h]

/-- Claim C6 (amended): a non-positive bin-size input, and any input strictly
between 0 and 1, is coerced to 1; an input of at least 1 is floored (so a
non-integer input above 1 becomes its floor, not 1).  For a positive integer
bin size `k`, a document whose year string parses to `y` falls into the bin
starting at `floor(y / k) * k` and covering `k` consecutive years, labelled by
`mkLabel` (the literal year when `k = 1`). -/
theorem c6_binSize_and_binning :
    (∀ x : Rat, x ≤ 0 → binSizeOf x = 1) ∧
    (∀ x : Rat, 0 < x → x < 1 → binSizeOf x = 1) ∧
    (∀ x : Rat, 1 ≤ x → binSizeOf x = Rat.floor x) ∧
    (∀ (mId : MetaMap) (docId ys : String) (m : CorpusMeta) (y k : Int),
      lookupMeta mId docId = some m → m.year = some ys → parseIntString ys = some y → 1 ≤ k →
      getYearLabel mId k docId = some (mkLabel k (Int.fdiv y k * k)) ∧
      Int.fdiv y k * k ≤ y ∧ y < Int.fdiv y k * k + k ∧
      mkLabel 1 (Int.fdiv y 1 * 1) = numToString y) := by
  have hfloor_le : ∀ x : Rat, x < 1 → Rat.floor x ≤ 0 := by
    intro x h
    have : ¬ (1 ≤ Rat.floor x) := by
      rw [Rat.le_floor]
      push_neg
      exact_mod_cast h
    omega
  refine ⟨?_, ?_, ?_, ?_⟩
  · intro x hx
    by_cases h0 : x = 0
    · subst h0
      unfold binSizeOf
      rw [if_pos rfl]
      decide
    · unfold binSizeOf
      rw [if_neg h0]
      have := hfloor_le x (lt_of_le_of_lt hx (by norm_num))
      omega
  · intro x hx0 hx1
    unfold binSizeOf
    rw [if_neg (by exact fun h => by rw [h] at hx0; exact lt_irrefl 0 hx0)]
    have := hfloor_le x hx1
    omega
  · intro x hx
    unfold binSizeOf
    rw [if_neg (by exact fun h => by rw [h] at hx; norm_num at hx)]
    have : 1 ≤ Rat.floor x := by rw [Rat.le_floor]; exact_mod_cast hx
    omega
  · intro mId docId ys m y k hlook hyear hparse hk
    have hinfo : getYearInfo mId k docId = some (mkLabel k (Int.fdiv y k * k), Int.fdiv y k * k) := by
      unfold getYearInfo
      rw [hlook]
      simp [hyear, jsNumberOpt, hparse]
    refine ⟨by simp [getYearLabel, hinfo], ?_, ?_, ?_⟩
    · have hfd : Int.fdiv y k = y / k := Int.fdiv_eq_ediv y (by omega)
      rw [hfd]
      exact Int.ediv_mul_le y (show k ≠ 0 by omega)
    · have hfd : Int.fdiv y k = y / k := Int.fdiv_eq_ediv y (by omega)
      have h1 := Int.lt_ediv_add_one_mul_self y (show 0 < k by omega)
      rw [hfd]
      nlinarith [h1]
    · rw [Int.fdiv_one, mul_one]
      simp [mkLabel, mkLabelChars, numToString]

/-- Witness for C6 at concrete inputs: −3 and 1/2 coerce to 1, 7/2 floors
to 3, and with bin size 10 the year 1994 lands in the bin starting at 1990
(label "1990-1999"). -/
theorem c6_witness :
    binSizeOf (-3) = 1 ∧ binSizeOf (1/2) = 1 ∧
    binSizeOf (7/2) = Rat.floor (7/2) ∧
    getYearLabel [("d1", { title := none, authors := none, year := some "1994" })] 10 "d1" =
      some "1990-1999" := by
  have h4 := (c6_binSize_and_binning.2.2.2
    [("d1", { title := none, authors := none, year := some "1994" })] "d1" "1994"
    { title := none, authors := none, year := some "1994" } 1994 10
    (by decide) rfl (by decide) (by decide)).1
  refine ⟨c6_binSize_and_binning.1 (-3) (by norm_num),
    c6_binSize_and_binning.2.1 (1/2) (by norm_num) (by norm_num),
    c6_binSize_and_binning.2.2.1 (7/2) (by norm_num), ?_⟩
  rw [h4]
  decide

unseal Rat.mul Rat.sub Rat.add Rat.inv in
/-- Counterexample to C6 as stated: the non-integer bin size 5/2 is coerced to
2 (its floor), not to 1 — with a document of year 1994 the bins produced under
input 5/2 and under input 1 differ. -/
theorem c6_counterexample :
    binSizeOf (5/2) = 2 ∧ (2 : Int) ≠ 1 ∧
    getYearLabel [("d1", { title := none, authors := none, year := some "1994" })]
      (binSizeOf (5/2)) "d1" = some "1994-1995" ∧
    getYearLabel [("d1", { title := none, authors := none, year := some "1994" })]
      (binSizeOf 1) "d1" = some "1994" ∧
    ("1994-1995" : String) ≠ "1994" := by decide

/- Percent columns of the pivoted table. -/

theorem mem_mkColumnDefs_percent {sp : Bool} {labels : List String} {col : ColumnDef}
    (h : col ∈ mkColumnDefs sp labels) (hk : col.kind = ColKind.percent) :
    ∃ lab ∈ labels,
      col = { key := lab ++ "__percent", label := lab ++ " %", kind := .percent,
              year := some lab } := by
  unfold mkColumnDefs at h
  rw [List.mem_flatMap] at h
  obtain ⟨lab, hlab, hmem⟩ := h
  rw [List.mem_cons] at hmem
  rcases hmem with h1 | h2
  · subst h1; simp at hk
  · refine ⟨lab, hlab, ?_⟩
    cases sp with
    | false => simp at h2
    | true => simpa using h2

theorem topicsTable_mode (data : EvalData) (mId : MetaMap) (opts : ViewOptions) :
    (topicsTable data mId opts).mode = "topics" := rfl

theorem topicsTable_columns (data : EvalData) (mId : MetaMap) (opts : ViewOptions) :
    (topicsTable data mId opts).columns =
      mkColumnDefs opts.aggregatePercent
        (yearLabelsOf (yearBinsList mId (binSizeOf opts.yearBinSize) data)) := rfl

/-- Claim C4 (amended): for every pivoted table and every percent column, the
displayed table cell and the chart-series value both equal
`100 × count / yearTotals[bin]` when the bin's denominator is positive and `0`
when it is not (never a division by zero); the percent sort comparator instead
compares the unscaled ratios `count / yearTotals[bin]` (again `0` on a zero
denominator), i.e. the displayed percent divided by 100, which orders rows
identically but is not itself `100 × count / denominator`. -/
theorem c4_percent_pipeline (data : EvalData) (mId : MetaMap) (opts : ViewOptions)
    (col : ColumnDef) (row : TableRow)
    (hcol : col ∈ (topicsTable data mId opts).columns) (hk : col.kind = ColKind.percent) :
    ∃ lab, col.year = some lab ∧
      cellValue (topicsTable data mId opts) row col =
        specPercentValue (getD row.values lab)
          (getD ((topicsTable data mId opts).yearTotals.getD []) lab) ∧
      chartCellValue (topicsTable data mId opts) true row lab =
        specPercentValue (getD row.values lab)
          (getD ((topicsTable data mId opts).yearTotals.getD []) lab) ∧
      percentSortValue ((topicsTable data mId opts).yearTotals.getD []) lab row =
        specPercentValue (getD row.values lab)
          (getD ((topicsTable data mId opts).yearTotals.getD []) lab) / 100 ∧
      (getD ((topicsTable data mId opts).yearTotals.getD []) lab ≤ 0 →
        cellValue (topicsTable data mId opts) row col = 0) := by
  rw [topicsTable_columns] at hcol
  obtain ⟨lab, _, hcoleq⟩ := mem_mkColumnDefs_percent hcol hk
  subst hcoleq
  have hmode := topicsTable_mode data mId opts
  refine ⟨lab, rfl, ?_, ?_, ?_, ?_⟩
  · by_cases hd : getD ((topicsTable data mId opts).yearTotals.getD []) lab > 0
    · simp [cellValue, specPercentValue, hmode, hd]
      ring
    · simp [cellValue, specPercentValue, hmode, hd]
  · by_cases hd : getD ((topicsTable data mId opts).yearTotals.getD []) lab > 0
    · simp [chartCellValue, specPercentValue, hd]
      ring
    · simp [chartCellValue, specPercentValue, hd]
  · by_cases hd : getD ((topicsTable data mId opts).yearTotals.getD []) lab > 0
    · have hdz : ((getD ((topicsTable data mId opts).yearTotals.getD []) lab : Int) : Rat) ≠ 0 := by
        exact_mod_cast (by omega : (getD ((topicsTable data mId opts).yearTotals.getD []) lab : Int) ≠ 0)
      simp [percentSortValue, specPercentValue, hd]
      field_simp
      ring
    · simp [percentSortValue, specPercentValue, hd]
  · intro hz
    have hd : ¬ (getD ((topicsTable data mId opts).yearTotals.getD []) lab > 0) := by omega
    simp [cellValue, hmode, hd]

/-- Shared concrete fixture: two documents, one without a usable year. -/
def exData : EvalData := [("d1", [("t", 3)]), ("d2", [("t", 2)])]

/-- Shared concrete fixture: metadata carrying a year only for `d2`. -/
def exMeta : MetaMap := [("d2", { title := none, authors := none, year := some "1990" })]

/-- Shared concrete fixture: pivoted view options with the percent toggle on. -/
def exOptsPP : ViewOptions :=
  { sortKey := "total", sortDir := .desc, totalThreshold := 0, aggregateByYear := true,
    yearBinSize := 1, aggregatePercent := true }

/-- Shared concrete fixture: the percent column of the 1990 bin. -/
def exPercentCol : ColumnDef :=
  { key := "1990__percent", label := "1990 %", kind := .percent, year := some "1990" }

/-- Shared concrete fixture: the accumulated topic row of the fixture table. -/
def exRowT : TableRow := { id := "t", values := [("1990", 2)], total := 2 }

unseal Rat.mul Rat.sub Rat.add Rat.inv in
/-- Witness for C4 at a concrete pivoted table: the 1990 percent column's
displayed value is 100 × 2 / 2 = 100. -/
theorem c4_witness :
    (∃ lab, exPercentCol.year = some lab ∧
      cellValue (topicsTable exData exMeta exOptsPP) exRowT exPercentCol =
        specPercentValue (getD exRowT.values lab)
          (getD ((topicsTable exData exMeta exOptsPP).yearTotals.getD []) lab) ∧
      chartCellValue (topicsTable exData exMeta exOptsPP) true exRowT lab =
        specPercentValue (getD exRowT.values lab)
          (getD ((topicsTable exData exMeta exOptsPP).yearTotals.getD []) lab) ∧
      percentSortValue ((topicsTable exData exMeta exOptsPP).yearTotals.getD []) lab exRowT =
        specPercentValue (getD exRowT.values lab)
          (getD ((topicsTable exData exMeta exOptsPP).yearTotals.getD []) lab) / 100 ∧
      (getD ((topicsTable exData exMeta exOptsPP).yearTotals.getD []) lab ≤ 0 →
        cellValue (topicsTable exData exMeta exOptsPP) exRowT exPercentCol = 0)) ∧
    cellValue (topicsTable exData exMeta exOptsPP) exRowT exPercentCol = 100 :=
  ⟨c4_percent_pipeline exData exMeta exOptsPP exPercentCol exRowT (by decide) rfl, by decide⟩

unseal Rat.mul Rat.sub Rat.add Rat.inv in
/-- Counterexample to C4 as stated: with count 1 and denominator 2 the percent
sort comparator computes the value 1/2, not 100 × 1 / 2 = 50 — the claim's
equation fails for the comparator (it omits the factor 100). -/
theorem c4_counterexample :
    percentSortValue [("1990", 2)] "1990" { id := "t", values := [("1990", 1)], total := 1 } =
      1 / 2 ∧
    specPercentValue 1 2 = 50 ∧ ((1 : Rat) / 2) ≠ 50 := by decide

/-- Claim C8 (amended): in document mode with sort key `year` the comparator
compares numerically on the parsed metadata year; a document whose year is
absent from both metadata tables is treated as the value 0; but a document
whose year string is present and non-numeric parses to NaN, so the comparator
returns 0 against every other row (a tie that leaves the stable sort order
unchanged) rather than behaving like the value 0. -/
theorem c8_year_comparator (mId mUrn : MetaMap) (topics : List String) (d : Dir)
    (a b : TableRow) :
    (∀ x y, yearNumOf mId mUrn a.id = some x → yearNumOf mId mUrn b.id = some y →
      docsCmp mId mUrn topics "year" d a b = dirMult d * ((x : Rat) - (y : Rat))) ∧
    (yearNumOf mId mUrn a.id = none →
      docsCmp mId mUrn topics "year" d a b = 0 ∧ docsCmp mId mUrn topics "year" d b a = 0) ∧
    (((lookupMeta mId a.id).bind (fun m => m.year)).orElse
        (fun _ => (lookupMeta mUrn a.id).bind (fun m => m.year)) = none →
      yearNumOf mId mUrn a.id = some 0) := by
  refine ⟨fun x y hx hy => ?_, fun hna => ?_, fun hmiss => ?_⟩
  · simp [docsCmp, hx, hy]
  · constructor
    · cases hyb : yearNumOf mId mUrn b.id <;> simp [docsCmp, hna, hyb]
    · cases hyb : yearNumOf mId mUrn b.id <;> simp [docsCmp, hna, hyb]
  · unfold yearNumOf
    rw [hmiss]

unseal Rat.mul Rat.sub Rat.add Rat.inv in
/-- Witness for C8 at concrete inputs: a document with year "abc" (NaN) ties
against a document with year 1990 in both directions, a document missing from
both metadata tables gets year value 0, and two numeric years compare by
subtraction. -/
theorem c8_witness :
    docsCmp [("x", { title := none, authors := none, year := some "abc" }),
             ("y", { title := none, authors := none, year := some "1990" })] [] []
      "year" Dir.asc { id := "x", values := [], total := 0 } { id := "y", values := [], total := 0 } = 0 ∧
    yearNumOf [] [] "z" = some 0 ∧
    docsCmp [("x", { title := none, authors := none, year := some "1988" }),
             ("y", { title := none, authors := none, year := some "1990" })] [] []
      "year" Dir.asc { id := "x", values := [], total := 0 } { id := "y", values := [], total := 0 } =
      dirMult Dir.asc * ((1988 : Rat) - 1990) := by
  refine ⟨?_, ?_, ?_⟩
  · exact ((c8_year_comparator
      [("x", { title := none, authors := none, year := some "abc" }),
       ("y", { title := none, authors := none, year := some "1990" })] [] [] Dir.asc
      { id := "x", values := [], total := 0 } { id := "y", values := [], total := 0 }).2.1
      (by decide)).1
  · exact (c8_year_comparator [] [] [] Dir.asc
      { id := "z", values := [], total := 0 } { id := "z", values := [], total := 0 }).2.2
      (by decide)
  · exact (c8_year_comparator
      [("x", { title := none, authors := none, year := some "1988" }),
       ("y", { title := none, authors := none, year := some "1990" })] [] [] Dir.asc
      { id := "x", values := [], total := 0 } { id := "y", values := [], total := 0 }).1
      1988 1990 (by decide) (by decide)

unseal Rat.mul Rat.sub Rat.add Rat.inv in
/-- Counterexample to C8 as stated: if the non-numeric year "abc" were treated
as the value 0, the ascending comparison against year 1990 would yield −1990,
but the comparator returns 0 (a tie). -/
theorem c8_counterexample :
    docsCmp [("x", { title := none, authors := none, year := some "abc" }),
             ("y", { title := none, authors := none, year := some "1990" })] [] []
      "year" Dir.asc { id := "x", values := [], total := 0 }
      { id := "y", values := [], total := 0 } = 0 ∧
    dirMult Dir.asc * ((0 : Rat) - 1990) = -1990 ∧ (0 : Rat) ≠ -1990 := by decide

/- Sums of row totals. -/

/-- Sum of the `total` fields of a row list. -/
def sumTotals (rows : List TableRow) : Int := (rows.map (fun r => r.total)).sum

theorem sumTotals_nil : sumTotals [] = 0 := rfl

theorem sumTotals_cons (r : TableRow) (rs : List TableRow) :
    sumTotals (r :: rs) = r.total + sumTotals rs := by simp [sumTotals]

theorem foldl_add_snd (tc : TopicCounts) :
    ∀ init : Int, tc.foldl (fun s p => s + p.2) init = init + (tc.map (fun p => p.2)).sum := by
  induction tc with
  | nil => intro init; simp
  | cons p ps ih => intro init; rw [List.foldl_cons, ih]; simp; omega

theorem rowTotalOf_eq (tc : TopicCounts) : rowTotalOf tc = (tc.map (fun p => p.2)).sum := by
  have h := foldl_add_snd tc 0
  simpa [rowTotalOf] using h

theorem map_update_of_not_mem (rows : List TableRow) (t : String) (f : TableRow → TableRow)
    (h : t ∉ rows.map (fun r => r.id)) :
    rows.map (fun r => if r.id = t then f r else r) = rows := by
  induction rows with
  | nil => rfl
  | cons r rs ih =>
    rw [List.map_cons, List.mem_cons] at h
    push_neg at h
    rw [List.map_cons, if_neg (fun hh => h.1 hh.symm), ih h.2]

theorem sumTotals_map_update (rows : List TableRow) (t : String) (v : Int)
    (f : TableRow → TableRow) (hf : ∀ r, (f r).total = r.total + v)
    (hnd : (rows.map (fun r => r.id)).Nodup) (hmem : t ∈ rows.map (fun r => r.id)) :
    sumTotals (rows.map (fun r => if r.id = t then f r else r)) = sumTotals rows + v := by
  induction rows with
  | nil => simp at hmem
  | cons r rs ih =>
    rw [List.map_cons, List.nodup_cons] at hnd
    rw [List.map_cons, List.mem_cons] at hmem
    by_cases h : r.id = t
    · have ht : t ∉ rs.map (fun r => r.id) := h ▸ hnd.1
      rw [List.map_cons, if_pos h, map_update_of_not_mem rs t f ht, sumTotals_cons,
        sumTotals_cons, hf r]
      omega
    · have hmem' : t ∈ rs.map (fun r => r.id) := by
        rcases hmem with h1 | h2
        · exact absurd h1.symm h
        · exact h2
      rw [List.map_cons, if_neg h, sumTotals_cons, sumTotals_cons, ih hnd.2 hmem']
      omega

theorem anyId_eq_true_iff (rows : List TableRow) (t : String) :
    (rows.any (fun r => r.id == t) = true) ↔ t ∈ rows.map (fun r => r.id) := by
  simp [List.any_eq_true, List.mem_map]

/- Identities of the pivot rows are untouched by the accumulation. -/

theorem applyEntry_ids (lab : String) (st : List TableRow × List (String × Int))
    (tv : String × Int) :
    (applyEntry lab st tv).1.map (fun r => r.id) = st.1.map (fun r => r.id) := by
  unfold applyEntry
  split
  · rw [List.map_map]
    apply List.map_congr_left
    intro r _
    by_cases h : r.id = tv.1 <;> simp [h, Function.comp]
  · rfl

theorem applyDoc_ids (lab : String) (st : List TableRow × List (String × Int))
    (tc : TopicCounts) :
    (applyDoc lab st tc).1.map (fun r => r.id) = st.1.map (fun r => r.id) := by
  unfold applyDoc
  induction tc generalizing st with
  | nil => rfl
  | cons p ps ih => rw [List.foldl_cons, ih, applyEntry_ids]

theorem initRows_ids (uni : List String) : (initRows uni).map (fun r => r.id) = uni := by
  unfold initRows
  rw [List.map_map]
  show List.map id uni = uni
  exact List.map_id uni

theorem aggregateRows_ids (mId : MetaMap) (binSize : Int) (uni : List String)
    (docs : EvalData) :
    (aggregateRows mId binSize uni docs).1.map (fun r => r.id) = uni := by
  unfold aggregateRows
  have h : ∀ (st : List TableRow × List (String × Int)),
      ((docs.foldl (fun st d =>
        match getYearInfo mId binSize d.1 with
        | none => st
        | some p => applyDoc p.1 st d.2) st).1.map (fun r => r.id)) =
        st.1.map (fun r => r.id) := by
    induction docs with
    | nil => intro st; rfl
    | cons d ds ih =>
      intro st
      rw [List.foldl_cons, ih]
      cases getYearInfo mId binSize d.1 <;> simp [applyDoc_ids]
  rw [h, initRows_ids]

/- Every accumulated count lands in exactly one row total. -/

theorem sumTotals_applyEntry (lab : String) (st : List TableRow × List (String × Int))
    (tv : String × Int) (hnd : (st.1.map (fun r => r.id)).Nodup)
    (hmem : tv.1 ∈ st.1.map (fun r => r.id)) :
    sumTotals (applyEntry lab st tv).1 = sumTotals st.1 + tv.2 := by
  unfold applyEntry
  rw [if_pos ((anyId_eq_true_iff st.1 tv.1).mpr hmem)]
  exact sumTotals_map_update st.1 tv.1 tv.2 _ (fun r => rfl) hnd hmem

theorem sumTotals_applyDoc (lab : String) (st : List TableRow × List (String × Int))
    (tc : TopicCounts) (hnd : (st.1.map (fun r => r.id)).Nodup)
    (hkeys : ∀ p ∈ tc, p.1 ∈ st.1.map (fun r => r.id)) :
    sumTotals (applyDoc lab st tc).1 = sumTotals st.1 + (tc.map (fun p => p.2)).sum := by
  induction tc generalizing st with
  | nil => simp [applyDoc]
  | cons p ps ih =>
    have hstep := sumTotals_applyEntry lab st p hnd (hkeys p (List.mem_cons_self p ps))
    have hids := applyEntry_ids lab st p
    have h2 := ih (applyEntry lab st p) (hids ▸ hnd)
      (fun q hq => hids ▸ hkeys q (List.mem_cons_of_mem p hq))
    unfold applyDoc at h2 ⊢
    rw [List.foldl_cons, h2, hstep]
    simp
    omega

theorem sumTotals_initRows (uni : List String) : sumTotals (initRows uni) = 0 := by
  simp [sumTotals, initRows, List.map_map, Function.comp]
  induction uni with
  | nil => rfl
  | cons u us ih => simpa using ih

theorem sumTotals_aggregateRows (mId : MetaMap) (binSize : Int) (uni : List String)
    (docs : EvalData) (hnd : uni.Nodup)
    (hkeys : ∀ d ∈ docs, ∀ p ∈ d.2, p.1 ∈ uni)
    (husable : ∀ d ∈ docs, (getYearInfo mId binSize d.1).isSome) :
    sumTotals (aggregateRows mId binSize uni docs).1 =
      (docs.map (fun d => (d.2.map (fun p => p.2)).sum)).sum := by
  unfold aggregateRows
  have aux : ∀ (ds : EvalData) (st : List TableRow × List (String × Int)),
      st.1.map (fun r => r.id) = uni →
      (∀ d ∈ ds, ∀ p ∈ d.2, p.1 ∈ uni) →
      (∀ d ∈ ds, (getYearInfo mId binSize d.1).isSome) →
      sumTotals ((ds.foldl (fun st d =>
        match getYearInfo mId binSize d.1 with
        | none => st
        | some p => applyDoc p.1 st d.2) st).1) =
        sumTotals st.1 + (ds.map (fun d => (d.2.map (fun p => p.2)).sum)).sum := by
    intro ds
    induction ds with
    | nil => intro st _ _ _; simp
    | cons d rest ih =>
      intro st hids hk hu
      rw [List.foldl_cons]
      cases hg : getYearInfo mId binSize d.1 with
      | none =>
        have := hu d (List.mem_cons_self d rest)
        rw [hg] at this
        simp at this
      | some p =>
        have hstep := sumTotals_applyDoc p.1 st d.2 (hids ▸ hnd)
          (fun q hq => by rw [hids]; exact hk d (List.mem_cons_self d rest) q hq)
        have hids' : (applyDoc p.1 st d.2).1.map (fun r => r.id) = uni := by
          rw [applyDoc_ids, hids]
        rw [ih (applyDoc p.1 st d.2) hids'
          (fun e he => hk e (List.mem_cons_of_mem d he))
          (fun e he => hu e (List.mem_cons_of_mem d he)), hstep]
        simp
        omega
  rw [aux docs (initRows uni, []) (initRows_ids uni) hkeys husable, sumTotals_initRows]
  simp

/- The topic universe contains exactly the word-group names of the result. -/

theorem mem_addKey {acc : List String} {k t : String} :
    t ∈ addKey acc k ↔ t ∈ acc ∨ t = k := by
  unfold addKey
  split
  · rename_i h
    constructor
    · exact Or.inl
    · rintro (h1 | rfl)
      · exact h1
      · exact h
  · simp

theorem nodup_addKey {acc : List String} {k : String} (h : acc.Nodup) :
    (addKey acc k).Nodup := by
  unfold addKey
  split
  · exact h
  · rename_i hk
    rw [List.nodup_append]
    refine ⟨h, List.nodup_singleton k, ?_⟩
    intro a ha hak
    rw [List.mem_singleton] at hak
    exact hk (hak ▸ ha)

theorem mem_foldl_addKey (tc : TopicCounts) :
    ∀ (acc : List String) (t : String),
      t ∈ tc.foldl (fun a p => addKey a p.1) acc ↔ t ∈ acc ∨ t ∈ tc.map (fun p => p.1) := by
  induction tc with
  | nil => intro acc t; simp
  | cons p ps ih =>
    intro acc t
    rw [List.foldl_cons, ih, mem_addKey]
    simp
    tauto

theorem nodup_foldl_addKey (tc : TopicCounts) :
    ∀ (acc : List String), acc.Nodup → (tc.foldl (fun a p => addKey a p.1) acc).Nodup := by
  induction tc with
  | nil => intro acc h; exact h
  | cons p ps ih => intro acc h; exact ih _ (nodup_addKey h)

theorem mem_collectTopics (data : EvalData) (t : String) :
    t ∈ collectTopics data ↔ ∃ d ∈ data, t ∈ d.2.map (fun p => p.1) := by
  unfold collectTopics
  have aux : ∀ (ds : EvalData) (acc : List String),
      t ∈ ds.foldl (fun acc d => d.2.foldl (fun a p => addKey a p.1) acc) acc ↔
        t ∈ acc ∨ ∃ d ∈ ds, t ∈ d.2.map (fun p => p.1) := by
    intro ds
    induction ds with
    | nil => intro acc; simp
    | cons d rest ih =>
      intro acc
      rw [List.foldl_cons, ih, mem_foldl_addKey]
      simp
      tauto
  rw [aux data []]
  simp

theorem nodup_collectTopics (data : EvalData) : (collectTopics data).Nodup := by
  unfold collectTopics
  have aux : ∀ (ds : EvalData) (acc : List String), acc.Nodup →
      (ds.foldl (fun acc d => d.2.foldl (fun a p => addKey a p.1) acc) acc).Nodup := by
    intro ds
    induction ds with
    | nil => intro acc h; exact h
    | cons d rest ih => intro acc h; exact ih _ (nodup_foldl_addKey d.2 acc h)
  exact aux data [] List.nodup_nil

theorem topicUniverse_perm (data : EvalData) :
    (topicUniverse data).Perm (collectTopics data) := by
  unfold topicUniverse sortByICmp
  exact List.perm_insertionSort _ _

theorem mem_topicUniverse (data : EvalData) (t : String) :
    t ∈ topicUniverse data ↔ ∃ d ∈ data, t ∈ d.2.map (fun p => p.1) := by
  rw [(topicUniverse_perm data).mem_iff, mem_collectTopics]

theorem nodup_topicUniverse (data : EvalData) : (topicUniverse data).Nodup := by
  rw [(topicUniverse_perm data).nodup_iff]
  exact nodup_collectTopics data

/- Unfolding lemmas for the two table builders. -/

theorem docsTable_rows (data : EvalData) (mId mUrn : MetaMap) (opts : ViewOptions) :
    (docsTable data mId mUrn opts).rows =
      (if opts.totalThreshold > 0 then
        (sortByRCmp (docsCmp mId mUrn (topicUniverse data) opts.sortKey opts.sortDir)
          (docRows data)).filter (fun r => r.total ≥ opts.totalThreshold)
      else
        sortByRCmp (docsCmp mId mUrn (topicUniverse data) opts.sortKey opts.sortDir)
          (docRows data)) := rfl

theorem topicsTable_rows (data : EvalData) (mId : MetaMap) (opts : ViewOptions) :
    (topicsTable data mId opts).rows =
      (if opts.totalThreshold > 0 then
        (sortByRCmp (topicsCmp
            (mkColumnDefs opts.aggregatePercent
              (yearLabelsOf (yearBinsList mId (binSizeOf opts.yearBinSize) data)))
            (aggregateRows mId (binSizeOf opts.yearBinSize) (topicUniverse data) data).2
            opts.sortKey opts.sortDir)
          (aggregateRows mId (binSizeOf opts.yearBinSize) (topicUniverse data) data).1).filter
            (fun r => r.total ≥ opts.totalThreshold)
      else
        sortByRCmp (topicsCmp
            (mkColumnDefs opts.aggregatePercent
              (yearLabelsOf (yearBinsList mId (binSizeOf opts.yearBinSize) data)))
            (aggregateRows mId (binSizeOf opts.yearBinSize) (topicUniverse data) data).2
            opts.sortKey opts.sortDir)
          (aggregateRows mId (binSizeOf opts.yearBinSize) (topicUniverse data) data).1) := rfl

theorem sortByRCmp_perm {α : Type} (cmp : α → α → Rat) (l : List α) :
    (sortByRCmp cmp l).Perm l := by
  unfold sortByRCmp
  exact List.perm_insertionSort _ _

theorem sumTotals_sortByRCmp (cmp : TableRow → TableRow → Rat) (l : List TableRow) :
    sumTotals (sortByRCmp cmp l) = sumTotals l := by
  unfold sumTotals
  exact ((sortByRCmp_perm cmp l).map (fun r => r.total)).sum_eq

theorem sumTotals_docRows (data : EvalData) :
    sumTotals (docRows data) = (data.map (fun d => (d.2.map (fun p => p.2)).sum)).sum := by
  unfold sumTotals docRows
  rw [List.map_map]
  congr 1
  apply List.map_congr_left
  intro d _
  simp [Function.comp, rowTotalOf_eq]

/-- Claim C1 (amended): when every document has a usable (numeric) year and no
rows are removed by the total-threshold filter (`totalThreshold ≤ 0`), the sum
of `row.total` over the by-document table equals the sum of `row.total` over
the by-year pivoted table built from the same inputs, for every sort key,
direction, bin size and percent setting. -/
theorem c1_total_conservation (data : EvalData) (mId mUrn : MetaMap) (opts : ViewOptions)
    (husable : ∀ d ∈ data, (getYearInfo mId (binSizeOf opts.yearBinSize) d.1).isSome)
    (hthr : opts.totalThreshold ≤ 0) :
    ((docsTable data mId mUrn opts).rows.map (fun r => r.total)).sum =
      ((topicsTable data mId opts).rows.map (fun r => r.total)).sum := by
  have hnotgt : ¬ (opts.totalThreshold > 0) := by omega
  have hdocs : ((docsTable data mId mUrn opts).rows.map (fun r => r.total)).sum =
      (data.map (fun d => (d.2.map (fun p => p.2)).sum)).sum := by
    show sumTotals (docsTable data mId mUrn opts).rows = _
    rw [docsTable_rows, if_neg hnotgt, sumTotals_sortByRCmp, sumTotals_docRows]
  have htop : ((topicsTable data mId opts).rows.map (fun r => r.total)).sum =
      (data.map (fun d => (d.2.map (fun p => p.2)).sum)).sum := by
    show sumTotals (topicsTable data mId opts).rows = _
    rw [topicsTable_rows, if_neg hnotgt, sumTotals_sortByRCmp]
    exact sumTotals_aggregateRows mId (binSizeOf opts.yearBinSize) (topicUniverse data) data
      (nodup_topicUniverse data)
      (fun d hd p hp => (mem_topicUniverse data p.1).mpr
        ⟨d, hd, List.mem_map_of_mem (fun q => q.1) hp⟩)
      husable
  rw [hdocs, htop]

unseal Rat.mul Rat.sub Rat.add Rat.inv in
/-- Witness for C1 at a concrete input: one document with two topics and a
usable year, threshold 0 — both tables sum to 6. -/
theorem c1_witness :
    (((docsTable [("d1", [("a", 1), ("b", 5)])]
        [("d1", { title := none, authors := none, year := some "2000" })] []
        { sortKey := "total", sortDir := .desc, totalThreshold := 0, aggregateByYear := false,
          yearBinSize := 1, aggregatePercent := false }).rows.map (fun r => r.total)).sum =
      ((topicsTable [("d1", [("a", 1), ("b", 5)])]
        [("d1", { title := none, authors := none, year := some "2000" })]
        { sortKey := "total", sortDir := .desc, totalThreshold := 0, aggregateByYear := false,
          yearBinSize := 1, aggregatePercent := false }).rows.map (fun r => r.total)).sum) ∧
    (((docsTable [("d1", [("a", 1), ("b", 5)])]
        [("d1", { title := none, authors := none, year := some "2000" })] []
        { sortKey := "total", sortDir := .desc, totalThreshold := 0, aggregateByYear := false,
          yearBinSize := 1, aggregatePercent := false }).rows.map (fun r => r.total)).sum = 6) :=
  ⟨c1_total_conservation [("d1", [("a", 1), ("b", 5)])]
      [("d1", { title := none, authors := none, year := some "2000" })] []
      { sortKey := "total", sortDir := .desc, totalThreshold := 0, aggregateByYear := false,
        yearBinSize := 1, aggregatePercent := false }
      (by decide) (by decide),
   by decide⟩

unseal Rat.mul Rat.sub Rat.add Rat.inv in
/-- Counterexample to C1 as stated: with every year usable but threshold 4,
the by-document table keeps the document (total 6) while the pivoted table
drops topic "a" (total 1) and keeps only "b" (total 5): 6 ≠ 5. -/
theorem c1_counterexample :
    (∀ d ∈ [("d1", [("a", 1), ("b", 5)])],
      (getYearInfo [("d1", { title := none, authors := none, year := some "2000" })]
        (binSizeOf 1) d.1).isSome) ∧
    (((docsTable [("d1", [("a", 1), ("b", 5)])]
        [("d1", { title := none, authors := none, year := some "2000" })] []
        { sortKey := "total", sortDir := .desc, totalThreshold := 4, aggregateByYear := false,
          yearBinSize := 1, aggregatePercent := false }).rows.map (fun r => r.total)).sum = 6) ∧
    (((topicsTable [("d1", [("a", 1), ("b", 5)])]
        [("d1", { title := none, authors := none, year := some "2000" })]
        { sortKey := "total", sortDir := .desc, totalThreshold := 4, aggregateByYear := false,
          yearBinSize := 1, aggregatePercent := false }).rows.map (fun r => r.total)).sum = 5) ∧
    (6 : Int) ≠ 5 := by decide

/- Three-way lexicographic comparison is a total preorder. -/

theorem listCmp_swap : ∀ x y : List Nat, listCmp y x = -listCmp x y := by
  intro x
  induction x with
  | nil => intro y; cases y <;> simp [listCmp]
  | cons a as ih =>
    intro y
    cases y with
    | nil => simp [listCmp]
    | cons b bs =>
      simp only [listCmp]
      rcases lt_trichotomy a b with h | h | h
      · rw [if_neg (by omega), if_pos h, if_pos h]
        norm_num
      · subst h
        rw [if_neg (by omega), if_neg (by omega), if_neg (by omega), if_neg (by omega)]
        exact ih bs
      · rw [if_pos h, if_neg (by omega), if_pos h]

theorem listCmp_trans : ∀ x y z : List Nat,
    listCmp x y ≤ 0 → listCmp y z ≤ 0 → listCmp x z ≤ 0 := by
  intro x
  induction x with
  | nil => intro y z _ _; cases z <;> simp [listCmp]
  | cons a as ih =>
    intro y z h1 h2
    cases y with
    | nil => simp [listCmp] at h1
    | cons b bs =>
      cases z with
      | nil => simp [listCmp] at h2
      | cons c cs =>
        simp only [listCmp] at h1 h2 ⊢
        by_cases hab : a < b
        · by_cases hbc : b < c
          · rw [if_pos (lt_trans hab hbc)]; norm_num
          · by_cases hcb : c < b
            · rw [if_neg hbc, if_pos hcb] at h2; norm_num at h2
            · have hbc' : b = c := by omega
              subst hbc'
              rw [if_pos hab]; norm_num
        · by_cases hba : b < a
          · rw [if_neg hab, if_pos hba] at h1; norm_num at h1
          · have hab' : a = b := by omega
            subst hab'
            rw [if_neg (lt_irrefl a), if_neg (lt_irrefl a)] at h1
            by_cases hbc : a < c
            · rw [if_pos hbc]; norm_num
            · by_cases hcb : c < a
              · rw [if_neg hbc, if_pos hcb] at h2; norm_num at h2
              · have hbc' : a = c := by omega
                subst hbc'
                rw [if_neg (lt_irrefl a), if_neg (lt_irrefl a)] at h2 ⊢
                exact ih bs cs h1 h2

theorem strCmp_swap (s t : String) : strCmp t s = -strCmp s t := listCmp_swap _ _

theorem strCmp_trans (s t u : String) :
    strCmp s t ≤ 0 → strCmp t u ≤ 0 → strCmp s u ≤ 0 := listCmp_trans _ _ _

theorem nbCompare_swap (s t : String) : nbCompare t s = -nbCompare s t := listCmp_swap _ _

theorem nbCompare_trans (s t u : String) :
    nbCompare s t ≤ 0 → nbCompare t u ≤ 0 → nbCompare s u ≤ 0 := listCmp_trans _ _ _

/- A stable insertion sort is sorted when the relation is total and transitive
on the elements of the list. -/

theorem pairwise_orderedInsert (r : α → α → Prop) [DecidableRel r] (a : α) :
    ∀ l : List α,
      (∀ b ∈ l, r a b ∨ r b a) →
      (∀ b ∈ l, ∀ c ∈ l, r a b → r b c → r a c) →
      l.Pairwise r → (List.orderedInsert r a l).Pairwise r := by
  intro l
  induction l with
  | nil => intro _ _ _; simp
  | cons b bs ih =>
    intro htot htrans hp
    rw [List.orderedInsert]
    rw [List.pairwise_cons] at hp
    split
    · rename_i hab
      rw [List.pairwise_cons]
      refine ⟨?_, List.pairwise_cons.mpr hp⟩
      intro x hx
      rcases List.mem_cons.mp hx with h1 | h1
      · exact h1 ▸ hab
      · exact htrans b (List.mem_cons_self b bs) x (List.mem_cons_of_mem b h1) hab (hp.1 x h1)
    · rename_i hab
      rw [List.pairwise_cons]
      constructor
      · intro x hx
        rcases (List.mem_orderedInsert r).mp hx with h1 | h1
        · subst h1
          rcases htot b (List.mem_cons_self b bs) with h | h
          · exact absurd h hab
          · exact h
        · exact hp.1 x h1
      · exact ih (fun y hy => htot y (List.mem_cons_of_mem b hy))
          (fun y hy z hz => htrans y (List.mem_cons_of_mem b hy) z (List.mem_cons_of_mem b hz))
          hp.2

theorem pairwise_insertionSort_local (r : α → α → Prop) [DecidableRel r] :
    ∀ l : List α,
      (∀ a ∈ l, ∀ b ∈ l, r a b ∨ r b a) →
      (∀ a ∈ l, ∀ b ∈ l, ∀ c ∈ l, r a b → r b c → r a c) →
      (List.insertionSort r l).Pairwise r := by
  intro l
  induction l with
  | nil => intro _ _; simp
  | cons a as ih =>
    intro htot htrans
    rw [List.insertionSort]
    have hmem : ∀ x ∈ List.insertionSort r as, x ∈ a :: as :=
      fun x hx => List.mem_cons_of_mem a ((List.perm_insertionSort r as).mem_iff.mp hx)
    exact pairwise_orderedInsert r a (List.insertionSort r as)
      (fun b hb => htot a (List.mem_cons_self a as) b (hmem b hb))
      (fun b hb c hc hab hbc =>
        htrans a (List.mem_cons_self a as) b (hmem b hb) c (hmem c hc) hab hbc)
      (ih (fun x hx y hy => htot x (List.mem_cons_of_mem a hx) y (List.mem_cons_of_mem a hy))
        (fun x hx y hy z hz => htrans x (List.mem_cons_of_mem a hx)
          y (List.mem_cons_of_mem a hy) z (List.mem_cons_of_mem a hz)))

/- Row totals equal the sum of the per-topic values over the topic universe. -/

theorem getD_eq_zero_of_not_mem (tc : TopicCounts) (k : String)
    (h : k ∉ tc.map (fun p => p.1)) : getD tc k = 0 := by
  induction tc with
  | nil => rfl
  | cons p ps ih =>
    rw [List.map_cons, List.mem_cons] at h
    push_neg at h
    rw [getD, if_neg (fun hh => h.1 hh.symm)]
    exact ih h.2

theorem sum_map_ite (S : List String) (k : String) (v : Int) (g : String → Int)
    (hnd : S.Nodup) (hmem : k ∈ S) (hgk : g k = 0) :
    (S.map (fun t => if k = t then v else g t)).sum = v + (S.map g).sum := by
  induction S with
  | nil => simp at hmem
  | cons s S' ih =>
    rw [List.nodup_cons] at hnd
    rcases List.mem_cons.mp hmem with h1 | h1
    · subst h1
      rw [List.map_cons, if_pos rfl, List.sum_cons, List.map_cons, List.sum_cons, hgk]
      have : S'.map (fun t => if k = t then v else g t) = S'.map g := by
        apply List.map_congr_left
        intro t ht
        have hkt : k ≠ t := fun hh => hnd.1 (by rw [hh]; exact ht)
        rw [if_neg hkt]
      rw [this]
      omega
    · have hks : k ≠ s := fun h => hnd.1 (h ▸ h1)
      rw [List.map_cons, List.map_cons, if_neg hks, List.sum_cons, List.sum_cons, ih hnd.2 h1]
      omega

theorem sum_getD (tc : TopicCounts) : ∀ (S : List String), S.Nodup →
    (∀ p ∈ tc, p.1 ∈ S) → (tc.map (fun p => p.1)).Nodup →
    (S.map (fun t => getD tc t)).sum = (tc.map (fun p => p.2)).sum := by
  induction tc with
  | nil =>
    intro S _ _ _
    have : S.map (fun t => getD ([] : TopicCounts) t) = S.map (fun _ => (0 : Int)) :=
      List.map_congr_left (fun t _ => rfl)
    rw [this]
    simp
  | cons p ps ih =>
    intro S hnd hsub hkeys
    rw [List.map_cons, List.nodup_cons] at hkeys
    have hk : p.1 ∈ S := hsub p (List.mem_cons_self p ps)
    have hgk : getD ps p.1 = 0 := getD_eq_zero_of_not_mem ps p.1 hkeys.1
    have hstep : S.map (fun t => getD (p :: ps) t) = S.map (fun t => if p.1 = t then p.2 else getD ps t) :=
      List.map_congr_left (fun t _ => rfl)
    rw [hstep, sum_map_ite S p.1 p.2 (fun t => getD ps t) hnd hk hgk,
      ih S hnd (fun q hq => hsub q (List.mem_cons_of_mem p hq)) hkeys.2]
    simp

theorem topicUniverse_sorted (data : EvalData) :
    (topicUniverse data).Pairwise (fun a b => strCmp a b ≤ 0) := by
  unfold topicUniverse sortByICmp
  exact pairwise_insertionSort_local _ _
    (fun a _ b _ => by
      rcases le_or_lt (strCmp a b) 0 with h | h
      · exact Or.inl h
      · have := strCmp_swap a b
        exact Or.inr (by omega))
    (fun a _ b _ c _ => strCmp_trans a b c)

/-- Claim C2: the by-document builder produces one row per document entry
(with unique ids when the result's keys are unique), columns exactly the
lexically sorted topic universe (the union of word-group names over all
documents, without duplicates), per-topic row values looked up from the
document's counts with default 0, and a row total equal to the sum of the
per-topic values over the topic universe. -/
theorem c2_docs_builder (data : EvalData) (mId mUrn : MetaMap) (opts : ViewOptions)
    (hout : (data.map (fun d => d.1)).Nodup)
    (hin : ∀ d ∈ data, (d.2.map (fun p => p.1)).Nodup) :
    (docRows data).map (fun r => r.id) = data.map (fun d => d.1) ∧
    ((docRows data).map (fun r => r.id)).Nodup ∧
    (docsTable data mId mUrn opts).columns =
      (topicUniverse data).map
        (fun t => { key := t, label := t, kind := ColKind.count, year := none }) ∧
    (∀ t, t ∈ topicUniverse data ↔ ∃ d ∈ data, t ∈ d.2.map (fun p => p.1)) ∧
    (topicUniverse data).Nodup ∧
    (topicUniverse data).Pairwise (fun a b => strCmp a b ≤ 0) ∧
    (∀ r ∈ docRows data, ∃ tc, (r.id, tc) ∈ data ∧ (∀ t, getD r.values t = getD tc t) ∧
      r.total = ((topicUniverse data).map (fun t => getD tc t)).sum) := by
  have hids : (docRows data).map (fun r => r.id) = data.map (fun d => d.1) := by
    rw [docRows, List.map_map]
    rfl
  refine ⟨hids, hids ▸ hout, rfl, mem_topicUniverse data, nodup_topicUniverse data,
    topicUniverse_sorted data, ?_⟩
  intro r hr
  obtain ⟨d, hd, hrd⟩ := List.mem_map.mp hr
  refine ⟨d.2, ?_, ?_, ?_⟩
  · rw [← hrd]
    simpa using hd
  · intro t
    rw [← hrd]
  · rw [← hrd]
    show rowTotalOf d.2 = _
    rw [rowTotalOf_eq,
      sum_getD d.2 (topicUniverse data) (nodup_topicUniverse data)
        (fun p hp => (mem_topicUniverse data p.1).mpr
          ⟨d, hd, List.mem_map_of_mem (fun q => q.1) hp⟩)
        (hin d hd)]

/-- Shared concrete fixture: the specification's two-document scenario. -/
def exC2Data : EvalData := [("doc1", [("nature", 3), ("war", 0)]), ("doc2", [("nature", 5)])]

/-- Shared concrete fixture: document-mode options sorted by total, descending. -/
def exOptsTD : ViewOptions :=
  { sortKey := "total", sortDir := .desc, totalThreshold := 0, aggregateByYear := false,
    yearBinSize := 1, aggregatePercent := false }

unseal Rat.mul Rat.sub Rat.add Rat.inv in
/-- Witness for C2 on the specification's scenario: the universe is
`["nature", "war"]`, doc1.total = 3, doc2.total = 5, and sorting by total
descending orders doc2 before doc1. -/
theorem c2_witness :
    ((docRows exC2Data).map (fun r => r.id)).Nodup ∧
    topicUniverse exC2Data = ["nature", "war"] ∧
    (docRows exC2Data).map (fun r => r.total) = [3, 5] ∧
    (docsTable exC2Data [] [] exOptsTD).rows.map (fun r => r.id) = ["doc2", "doc1"] := by
  refine ⟨(c2_docs_builder exC2Data [] [] exOptsTD (by decide) (by decide)).2.1,
    by decide, by decide, by decide⟩

/- Two sorted permutations agree when ties imply equality. -/

theorem eq_of_perm_pairwise {α : Type} (r : α → α → Prop) :
    ∀ l₁ l₂ : List α, l₁.Perm l₂ → l₁.Pairwise r → l₂.Pairwise r →
      (∀ a ∈ l₁, ∀ b ∈ l₁, r a b → r b a → a = b) → l₁ = l₂ := by
  intro l₁
  induction l₁ with
  | nil =>
    intro l₂ hp _ _ _
    exact (hp.symm.eq_nil).symm
  | cons a t ih =>
    intro l₂ hp hs1 hs2 hanti
    cases l₂ with
    | nil => exact absurd hp.eq_nil (List.cons_ne_nil a t)
    | cons b t₂ =>
      rw [List.pairwise_cons] at hs1 hs2
      have hab : a = b := by
        have hbmem : b ∈ a :: t := hp.mem_iff.mpr (List.mem_cons_self b t₂)
        have hamem : a ∈ b :: t₂ := hp.mem_iff.mp (List.mem_cons_self a t)
        rcases List.mem_cons.mp hbmem with h1 | h1
        · exact h1.symm
        · rcases List.mem_cons.mp hamem with h2 | h2
          · exact h2
          · exact hanti a (List.mem_cons_self a t) b (List.mem_cons_of_mem a h1)
              (hs1.1 b h1) (hs2.1 a h2)
      subst hab
      have ht2 : t.Perm t₂ := hp.cons_inv
      rw [ih t₂ ht2 hs1.2 hs2.2
        (fun x hx y hy => hanti x (List.mem_cons_of_mem a hx) y (List.mem_cons_of_mem a hy))]

/-- For a sign-antisymmetric comparator that is transitive and tie-free on the
list, reversing the stable ascending sort gives the stable sort under the
negated comparator. -/
theorem sortByRCmp_reverse {α : Type} (cmp : α → α → Rat) (l : List α)
    (hanti : ∀ a b, cmp b a = -cmp a b)
    (htrans : ∀ a ∈ l, ∀ b ∈ l, ∀ c ∈ l, cmp a b ≤ 0 → cmp b c ≤ 0 → cmp a c ≤ 0)
    (hties : ∀ a ∈ l, ∀ b ∈ l, cmp a b = 0 → a = b) :
    (sortByRCmp cmp l).reverse = sortByRCmp (fun a b => -cmp a b) l := by
  have hsorted1 : (sortByRCmp cmp l).Pairwise (fun a b => cmp a b ≤ 0) := by
    unfold sortByRCmp
    exact pairwise_insertionSort_local _ l
      (fun a _ b _ => by
        rcases le_or_lt (cmp a b) 0 with h | h
        · exact Or.inl h
        · exact Or.inr (by rw [hanti]; linarith))
      htrans
  have hsorted2 : (sortByRCmp (fun a b => -cmp a b) l).Pairwise (fun a b => -cmp a b ≤ 0) := by
    unfold sortByRCmp
    exact pairwise_insertionSort_local _ l
      (fun a _ b _ => by
        rcases le_or_lt (-cmp a b) 0 with h | h
        · exact Or.inl h
        · exact Or.inr (by rw [hanti]; linarith))
      (fun a ha b hb c hc h h' => by
        have h1 : cmp b a ≤ 0 := by rw [hanti]; linarith
        have h2 : cmp c b ≤ 0 := by rw [hanti]; linarith
        have := htrans c hc b hb a ha h2 h1
        linarith [hanti c a, this])
  have hrevsorted : (sortByRCmp cmp l).reverse.Pairwise (fun a b => -cmp a b ≤ 0) := by
    rw [List.pairwise_reverse]
    exact hsorted1.imp (fun {a b} h => by linarith [hanti b a, h])
  have hperm : ((sortByRCmp cmp l).reverse).Perm (sortByRCmp (fun a b => -cmp a b) l) :=
    ((List.reverse_perm _).trans (sortByRCmp_perm cmp l)).trans (sortByRCmp_perm _ l).symm
  have hmem : ∀ x ∈ (sortByRCmp cmp l).reverse, x ∈ l := fun x hx =>
    (sortByRCmp_perm cmp l).mem_iff.mp (List.mem_reverse.mp hx)
  exact eq_of_perm_pairwise (fun a b => -cmp a b ≤ 0) _ _ hperm hrevsorted hsorted2
    (fun a ha b hb h h' =>
      hties a (hmem a ha) b (hmem b hb) (by linarith [hanti b a, h, h']))

/- The descending comparators are the ascending comparators times −1, and the
ascending comparators are sign-antisymmetric. -/

theorem docsCmp_desc_eq_neg (mId mUrn : MetaMap) (topics : List String) (key : String)
    (a b : TableRow) :
    docsCmp mId mUrn topics key .desc a b = -(docsCmp mId mUrn topics key .asc a b) := by
  simp only [docsCmp, dirMult]
  split_ifs
  · ring
  · ring
  · ring
  · rcases hya : yearNumOf mId mUrn a.id with _ | x <;>
      rcases hyb : yearNumOf mId mUrn b.id with _ | y <;>
        simp [hya, hyb] <;> try ring
  · ring
  · ring

theorem topicsCmp_desc_eq_neg (cols : List ColumnDef) (yt : List (String × Int))
    (key : String) (a b : TableRow) :
    topicsCmp cols yt key .desc a b = -(topicsCmp cols yt key .asc a b) := by
  simp only [topicsCmp, dirMult]
  split_ifs
  · ring
  · ring
  · rcases hcol : cols.find? (fun c => c.key == key) with _ | col
    · simp [hcol]
    · cases hk : col.kind <;> simp [hcol, hk] <;> try ring

theorem docsCmp_asc_anti (mId mUrn : MetaMap) (topics : List String) (key : String)
    (a b : TableRow) :
    docsCmp mId mUrn topics key .asc b a = -(docsCmp mId mUrn topics key .asc a b) := by
  simp only [docsCmp, dirMult]
  split_ifs with h1 h2 h3 h4 h5
  · rw [nbCompare_swap a.id b.id]
    push_cast
    ring
  · ring
  · rw [nbCompare_swap (metaFieldOf mId mUrn key a.id) (metaFieldOf mId mUrn key b.id)]
    push_cast
    ring
  · rcases hya : yearNumOf mId mUrn a.id with _ | x <;>
      rcases hyb : yearNumOf mId mUrn b.id with _ | y <;>
        simp [hya, hyb] <;> try ring
  · ring
  · ring

theorem topicsCmp_asc_anti (cols : List ColumnDef) (yt : List (String × Int))
    (key : String) (a b : TableRow) :
    topicsCmp cols yt key .asc b a = -(topicsCmp cols yt key .asc a b) := by
  simp only [topicsCmp, dirMult]
  split_ifs
  · rw [nbCompare_swap a.id b.id]
    push_cast
    ring
  · ring
  · rcases hcol : cols.find? (fun c => c.key == key) with _ | col
    · simp [hcol]
    · cases hk : col.kind <;> simp [hcol, hk] <;> try ring

/- Transitivity of the comparators' non-positive relation. -/

theorem topicsCmp_trans (cols : List ColumnDef) (yt : List (String × Int)) (key : String)
    (a b c : TableRow) :
    topicsCmp cols yt key .asc a b ≤ 0 → topicsCmp cols yt key .asc b c ≤ 0 →
      topicsCmp cols yt key .asc a c ≤ 0 := by
  simp only [topicsCmp, dirMult, one_mul]
  split_ifs
  · intro hab hbc
    exact_mod_cast nbCompare_trans a.id b.id c.id (by exact_mod_cast hab) (by exact_mod_cast hbc)
  · intro hab hbc
    linarith
  · rcases hcol : cols.find? (fun c => c.key == key) with _ | col
    · intro hab hbc
      simp [hcol]
    · cases hk : col.kind
      · intro hab hbc
        simp only [hcol, hk] at hab hbc ⊢
        linarith
      · intro hab hbc
        simp only [hcol, hk] at hab hbc ⊢
        linarith

theorem docsCmp_trans_of_ties (mId mUrn : MetaMap) (topics : List String) (key : String)
    (l : List TableRow)
    (hties : ∀ a ∈ l, ∀ b ∈ l, docsCmp mId mUrn topics key .asc a b = 0 → a = b) :
    ∀ a ∈ l, ∀ b ∈ l, ∀ c ∈ l,
      docsCmp mId mUrn topics key .asc a b ≤ 0 → docsCmp mId mUrn topics key .asc b c ≤ 0 →
      docsCmp mId mUrn topics key .asc a c ≤ 0 := by
  intro a ha b hb c hc hab hbc
  by_cases h1 : key = "dhlabid" ∨ key = "row"
  · simp only [docsCmp, dirMult, if_pos h1, one_mul] at hab hbc ⊢
    exact_mod_cast nbCompare_trans a.id b.id c.id (by exact_mod_cast hab) (by exact_mod_cast hbc)
  · by_cases h2 : key = "total"
    · simp only [docsCmp, dirMult, if_neg h1, if_pos h2, one_mul] at hab hbc ⊢
      linarith
    · by_cases h3 : key = "title" ∨ key = "authors"
      · simp only [docsCmp, dirMult, if_neg h1, if_neg h2, if_pos h3, one_mul] at hab hbc ⊢
        exact_mod_cast nbCompare_trans (metaFieldOf mId mUrn key a.id)
          (metaFieldOf mId mUrn key b.id) (metaFieldOf mId mUrn key c.id)
          (by exact_mod_cast hab) (by exact_mod_cast hbc)
      · by_cases h4 : key = "year"
        · simp only [docsCmp, dirMult, if_neg h1, if_neg h2, if_neg h3, if_pos h4,
            one_mul] at hab hbc ⊢
          rcases hya : yearNumOf mId mUrn a.id with _ | x
          · rcases hyc : yearNumOf mId mUrn c.id with _ | z <;> simp [hya, hyc]
          · rcases hyc : yearNumOf mId mUrn c.id with _ | z
            · simp [hya, hyc]
            · rcases hyb : yearNumOf mId mUrn b.id with _ | y
              · have hcmp0 : docsCmp mId mUrn topics key .asc a b = 0 := by
                  simp [docsCmp, dirMult, h1, h2, h3, h4, hya, hyb]
                have hab2 := hties a ha b hb hcmp0
                rw [hab2] at hya
                rw [hyb] at hya
                exact absurd hya (by simp)
              · simp only [hya, hyb] at hab
                simp only [hyb, hyc] at hbc
                simp only [hya, hyc]
                simp at hab hbc ⊢
                linarith
        · by_cases h5 : key ∈ topics
          · simp only [docsCmp, dirMult, if_neg h1, if_neg h2, if_neg h3, if_neg h4,
              if_pos h5, one_mul] at hab hbc ⊢
            linarith
          · simp only [docsCmp, dirMult, if_neg h1, if_neg h2, if_neg h3, if_neg h4,
              if_neg h5] at hab hbc ⊢
            exact le_refl 0

/-- Claim C9 (amended): for every supported sort key, sorting ascending and
then reversing yields exactly the descending sort — in both table modes — as
long as no two distinct rows of the list compare equal under the selected key
(the descending comparator is indeed the ascending comparator times −1, but
on tied rows the stable sort preserves the original order in both directions,
so with ties the two sequences differ). -/
theorem c9_direction_inversion (mId mUrn : MetaMap) (topics : List String)
    (cols : List ColumnDef) (yt : List (String × Int)) (key : String) (l : List TableRow)
    (hd : ∀ a ∈ l, ∀ b ∈ l, docsCmp mId mUrn topics key .asc a b = 0 → a = b)
    (htp : ∀ a ∈ l, ∀ b ∈ l, topicsCmp cols yt key .asc a b = 0 → a = b) :
    (sortByRCmp (docsCmp mId mUrn topics key .asc) l).reverse =
      sortByRCmp (docsCmp mId mUrn topics key .desc) l ∧
    (sortByRCmp (topicsCmp cols yt key .asc) l).reverse =
      sortByRCmp (topicsCmp cols yt key .desc) l := by
  constructor
  · have hdesc : docsCmp mId mUrn topics key Dir.desc =
        fun a b => -(docsCmp mId mUrn topics key Dir.asc a b) := by
      funext a b
      exact docsCmp_desc_eq_neg mId mUrn topics key a b
    rw [hdesc]
    exact sortByRCmp_reverse _ l (fun a b => docsCmp_asc_anti mId mUrn topics key a b)
      (docsCmp_trans_of_ties mId mUrn topics key l hd) hd
  · have hdesc : topicsCmp cols yt key Dir.desc =
        fun a b => -(topicsCmp cols yt key Dir.asc a b) := by
      funext a b
      exact topicsCmp_desc_eq_neg cols yt key a b
    rw [hdesc]
    exact sortByRCmp_reverse _ l (fun a b => topicsCmp_asc_anti cols yt key a b)
      (fun a _ b _ c _ => topicsCmp_trans cols yt key a b c) htp

/-- Shared concrete fixture: two rows with distinct totals. -/
def exRowU : TableRow := { id := "u", values := [], total := 1 }

/-- Shared concrete fixture: second row with a distinct total. -/
def exRowV : TableRow := { id := "v", values := [], total := 2 }

/-- Shared concrete fixture: a row tying with `exRowU` on total. -/
def exRowW : TableRow := { id := "w", values := [], total := 1 }

unseal Rat.mul Rat.sub Rat.add Rat.inv in
/-- Witness for C9 at a concrete tie-free list: with rows of totals 1 and 2
under the `total` key, reversing the ascending sort equals the descending
sort in both modes. -/
theorem c9_witness :
    (sortByRCmp (docsCmp [] [] [] "total" .asc) [exRowU, exRowV]).reverse =
      sortByRCmp (docsCmp [] [] [] "total" .desc) [exRowU, exRowV] ∧
    (sortByRCmp (topicsCmp [] [] "total" .asc) [exRowU, exRowV]).reverse =
      sortByRCmp (topicsCmp [] [] "total" .desc) [exRowU, exRowV] :=
  c9_direction_inversion [] [] [] [] [] "total" [exRowU, exRowV] (by decide) (by decide)

unseal Rat.mul Rat.sub Rat.add Rat.inv in
/-- Counterexample to C9 as stated: with two distinct rows that tie on total,
the stable sort keeps their order in both directions, so reversing the
ascending result is not the descending result. -/
theorem c9_counterexample :
    (sortByRCmp (docsCmp [] [] [] "total" Dir.asc) [exRowU, exRowW]).reverse ≠
      sortByRCmp (docsCmp [] [] [] "total" Dir.desc) [exRowU, exRowW] := by decide

/- Decimal renderings never collide with the "Ukjent" label. -/

theorem digitChar_isDigit (n : Nat) (h : n < 10) : (Nat.digitChar n).isDigit := by
  interval_cases n <;> decide

theorem natDecimalAux_facts :
    ∀ fuel n, n < fuel →
      natDecimalAux fuel n ≠ [] ∧ ∀ c ∈ natDecimalAux fuel n, c.isDigit := by
  intro fuel
  induction fuel with
  | zero => intro n h; omega
  | succ f ih =>
    intro n h
    rw [natDecimalAux]
    split
    · rename_i h10
      exact ⟨by simp, by simpa using digitChar_isDigit n h10⟩
    · rename_i h10
      have hn : 0 < n := by omega
      have hdiv : n / 10 < f := by
        have := Nat.div_lt_self hn (by omega : 1 < 10)
        omega
      obtain ⟨hne, hdig⟩ := ih (n / 10) hdiv
      refine ⟨by simp [hne], ?_⟩
      intro c hc
      rw [List.mem_append] at hc
      rcases hc with h1 | h1
      · exact hdig c h1
      · rw [List.mem_singleton] at h1
        exact h1 ▸ digitChar_isDigit (n % 10) (Nat.mod_lt n (by omega))

theorem natDecimal_facts (n : Nat) :
    natDecimal n ≠ [] ∧ ∀ c ∈ natDecimal n, c.isDigit :=
  natDecimalAux_facts (n + 1) n (by omega)

theorem intDecimal_head (i : Int) :
    ∃ c cs, intDecimal i = c :: cs ∧ (c = '-' ∨ c.isDigit) := by
  unfold intDecimal
  split
  · exact ⟨'-', natDecimal (-i).toNat, rfl, Or.inl rfl⟩
  · obtain ⟨hne, hdig⟩ := natDecimal_facts i.toNat
    cases h : natDecimal i.toNat with
    | nil => exact absurd h hne
    | cons c cs =>
      exact ⟨c, cs, rfl, Or.inr (hdig c (h ▸ List.mem_cons_self c cs))⟩

theorem mk_intDecimal_append_ne (i : Int) (rest : List Char) :
    (⟨intDecimal i ++ rest⟩ : String) ≠ "Ukjent" := by
  obtain ⟨c, cs, hcase, hc⟩ := intDecimal_head i
  rw [hcase]
  intro h
  have hdata : c :: (cs ++ rest) = ['U', 'k', 'j', 'e', 'n', 't'] := congrArg String.data h
  have hcU : c = 'U' := by injection hdata
  rcases hc with h1 | h1
  · rw [h1] at hcU
    exact absurd hcU (by decide)
  · rw [hcU] at h1
    exact absurd h1 (by decide)

theorem mkLabel_ne_Ukjent (bs start : Int) : mkLabel bs start ≠ "Ukjent" := by
  unfold mkLabel mkLabelChars
  split
  · exact mk_intDecimal_append_ne start _
  · have h := mk_intDecimal_append_ne start []
    simpa using h

/- Lookup and update lemmas for ordered maps. -/

theorem getD_setKey_self (l : List (String × Int)) (k : String) (v : Int) :
    getD (setKey l k v) k = v := by
  induction l with
  | nil => simp [setKey, getD]
  | cons p ps ih =>
    rw [setKey]
    split
    · rw [getD, if_pos rfl]
    · rename_i hp
      rw [getD, if_neg hp]
      exact ih

theorem getD_setKey_ne (l : List (String × Int)) (k k' : String) (v : Int) (h : k ≠ k') :
    getD (setKey l k v) k' = getD l k' := by
  induction l with
  | nil => simp [setKey, getD, h]
  | cons p ps ih =>
    rw [setKey]
    split
    · rename_i hp
      rw [getD, if_neg h, getD, if_neg (hp ▸ h)]
    · rw [getD, getD]
      split
      · rfl
      · exact ih

theorem setKey_keys (l : List (String × Int)) (k : String) (v : Int) :
    (setKey l k v).map (fun p => p.1) =
      if k ∈ l.map (fun p => p.1) then l.map (fun p => p.1)
      else l.map (fun p => p.1) ++ [k] := by
  induction l with
  | nil => simp [setKey]
  | cons p ps ih =>
    rw [setKey]
    split
    · rename_i hp
      rw [List.map_cons, List.map_cons, if_pos (by rw [hp]; exact List.mem_cons_self _ _), hp]
    · rename_i hp
      rw [List.map_cons, List.map_cons, ih]
      by_cases hmem : k ∈ ps.map (fun p => p.1)
      · rw [if_pos hmem, if_pos (List.mem_cons_of_mem _ hmem)]
      · rw [if_neg hmem, if_neg (by
          rw [List.mem_cons]
          push_neg
          exact ⟨fun hh => hp hh.symm, hmem⟩)]
        rfl

theorem setKey_keys_nodup (l : List (String × Int)) (k : String) (v : Int)
    (h : (l.map (fun p => p.1)).Nodup) : ((setKey l k v).map (fun p => p.1)).Nodup := by
  rw [setKey_keys]
  split
  · exact h
  · rename_i hmem
    rw [List.nodup_append]
    exact ⟨h, List.nodup_singleton k, fun a ha hak => hmem ((List.mem_singleton.mp hak) ▸ ha)⟩

theorem yearBinsListV1_keys_nodup (mId : MetaMap) (bs : Int) (docs : EvalData) :
    ((yearBinsListV1 mId bs docs).map (fun p => p.1)).Nodup := by
  unfold yearBinsListV1
  have aux : ∀ (ds : EvalData) (acc : List (String × Int)),
      (acc.map (fun p => p.1)).Nodup →
      ((ds.foldl (fun acc d => setKey acc (getYearInfoV1 mId bs d.1).1
        (getYearInfoV1 mId bs d.1).2) acc).map (fun p => p.1)).Nodup := by
    intro ds
    induction ds with
    | nil => intro acc h; exact h
    | cons d rest ih => intro acc h; exact ih _ (setKey_keys_nodup _ _ _ h)
  exact aux docs [] List.nodup_nil


/- Position of a bin label in the sorted label row. -/

theorem indexOf_lt_of_pairwise_snd (pairs : List (String × Int))
    (hnd : (pairs.map (fun p => p.1)).Nodup)
    (hp : pairs.Pairwise (fun a b => a.2 - b.2 ≤ 0))
    (la lb : String) (sa sb : Int) (ha : (la, sa) ∈ pairs) (hb : (lb, sb) ∈ pairs)
    (hlt : sa < sb) (hne : la ≠ lb) :
    List.indexOf la (pairs.map (fun p => p.1)) < List.indexOf lb (pairs.map (fun p => p.1)) := by
  have hla : la ∈ pairs.map (fun p => p.1) := List.mem_map_of_mem _ ha
  have hlb : lb ∈ pairs.map (fun p => p.1) := List.mem_map_of_mem _ hb
  have hi2 : List.indexOf la (pairs.map (fun p => p.1)) < (pairs.map (fun p => p.1)).length :=
    List.indexOf_lt_length.mpr hla
  have hj2 : List.indexOf lb (pairs.map (fun p => p.1)) < (pairs.map (fun p => p.1)).length :=
    List.indexOf_lt_length.mpr hlb
  have hi : List.indexOf la (pairs.map (fun p => p.1)) < pairs.length := by
    rw [List.length_map] at hi2
    exact hi2
  have hj : List.indexOf lb (pairs.map (fun p => p.1)) < pairs.length := by
    rw [List.length_map] at hj2
    exact hj2
  have hpair : ∀ (m : Nat) (hm : m < pairs.length) (lc : String) (sc : Int),
      (lc, sc) ∈ pairs → pairs[m].1 = lc → pairs[m] = (lc, sc) := by
    intro m hm lc sc hmem hfst
    obtain ⟨n, hn, hneq⟩ := List.mem_iff_getElem.mp hmem
    have hn2 : n < (pairs.map (fun p => p.1)).length := by
      rw [List.length_map]
      exact hn
    have hm2 : m < (pairs.map (fun p => p.1)).length := by
      rw [List.length_map]
      exact hm
    have hkeys : (pairs.map (fun p => p.1))[n] = (pairs.map (fun p => p.1))[m] := by
      rw [List.getElem_map, List.getElem_map, hneq, hfst]
    have hnm : n = m := (hnd.getElem_inj_iff).mp hkeys
    subst hnm
    exact hneq
  have hgeti : pairs[List.indexOf la (pairs.map (fun p => p.1))] = (la, sa) := by
    apply hpair _ hi la sa ha
    have h1 : (pairs.map (fun p => p.1))[List.indexOf la (pairs.map (fun p => p.1))] = la :=
      List.getElem_indexOf hi2
    rw [List.getElem_map] at h1
    exact h1
  have hgetj : pairs[List.indexOf lb (pairs.map (fun p => p.1))] = (lb, sb) := by
    apply hpair _ hj lb sb hb
    have h1 : (pairs.map (fun p => p.1))[List.indexOf lb (pairs.map (fun p => p.1))] = lb :=
      List.getElem_indexOf hj2
    rw [List.getElem_map] at h1
    exact h1
  by_contra hcon
  push_neg at hcon
  rcases Nat.lt_or_ge (List.indexOf lb (pairs.map (fun p => p.1)))
      (List.indexOf la (pairs.map (fun p => p.1))) with hji | hji
  · have hrel := List.pairwise_iff_getElem.mp hp _ _ hj hi hji
    rw [hgeti, hgetj] at hrel
    simp at hrel
    omega
  · have hij : List.indexOf la (pairs.map (fun p => p.1)) =
        List.indexOf lb (pairs.map (fun p => p.1)) := by omega
    have heq : (la, sa) = (lb, sb) := by
      rw [← hgeti, ← hgetj]
      simp only [hij]
    have : la = lb := by
      have := congrArg Prod.fst heq
      simpa using this
    exact hne this

/- The V1 accumulation of the "Ukjent" denominator. -/

theorem applyEntry_eq_of_not_mem (lab : String) (st : List TableRow × List (String × Int))
    (tv : String × Int) (h : tv.1 ∉ st.1.map (fun r => r.id)) :
    applyEntry lab st tv = st := by
  unfold applyEntry
  rw [if_neg (fun hh => h ((anyId_eq_true_iff _ _).mp hh))]

theorem applyEntry_snd_of_mem (lab : String) (st : List TableRow × List (String × Int))
    (tv : String × Int) (h : tv.1 ∈ st.1.map (fun r => r.id)) :
    (applyEntry lab st tv).2 = setKey st.2 lab (getD st.2 lab + tv.2) := by
  unfold applyEntry
  rw [if_pos ((anyId_eq_true_iff _ _).mpr h)]

theorem getD_applyDoc_self (lab : String) (st : List TableRow × List (String × Int))
    (tc : TopicCounts) :
    getD (applyDoc lab st tc).2 lab =
      getD st.2 lab +
        ((tc.filter (fun p => p.1 ∈ st.1.map (fun r => r.id))).map (fun p => p.2)).sum := by
  induction tc generalizing st with
  | nil => simp [applyDoc]
  | cons p ps ih =>
    by_cases hmem : p.1 ∈ st.1.map (fun r => r.id)
    · rw [show applyDoc lab st (p :: ps) = applyDoc lab (applyEntry lab st p) ps from rfl, ih,
        applyEntry_snd_of_mem lab st p hmem, getD_setKey_self, applyEntry_ids lab st p,
        List.filter_cons, if_pos (by simpa using hmem), List.map_cons, List.sum_cons]
      omega
    · rw [show applyDoc lab st (p :: ps) = applyDoc lab (applyEntry lab st p) ps from rfl,
        applyEntry_eq_of_not_mem lab st p hmem, ih,
        List.filter_cons, if_neg (by simpa using hmem)]

theorem getD_applyDoc_ne (lab k : String) (st : List TableRow × List (String × Int))
    (tc : TopicCounts) (h : lab ≠ k) :
    getD (applyDoc lab st tc).2 k = getD st.2 k := by
  induction tc generalizing st with
  | nil => rfl
  | cons p ps ih =>
    rw [show applyDoc lab st (p :: ps) = applyDoc lab (applyEntry lab st p) ps from rfl, ih]
    by_cases hmem : p.1 ∈ st.1.map (fun r => r.id)
    · rw [applyEntry_snd_of_mem lab st p hmem, getD_setKey_ne _ _ _ _ h]
    · rw [applyEntry_eq_of_not_mem lab st p hmem]

theorem yearTotalsV1_Ukjent (mId : MetaMap) (bs : Int) (uni : List String) (docs : EvalData) :
    getD (yearTotalsV1 mId bs uni docs) "Ukjent" =
      ((docs.filter (fun d =>
          (jsNumberOpt ((lookupMeta mId d.1).bind (fun m => m.year))).isNone)).map
        (fun d => ((d.2.filter (fun p => p.1 ∈ uni)).map (fun p => p.2)).sum)).sum := by
  unfold yearTotalsV1 aggregateRowsV1
  have aux : ∀ (ds : EvalData) (st : List TableRow × List (String × Int)),
      st.1.map (fun r => r.id) = uni →
      getD ((ds.foldl (fun st d => applyDoc (getYearInfoV1 mId bs d.1).1 st d.2) st).2)
          "Ukjent" =
        getD st.2 "Ukjent" +
          ((ds.filter (fun d =>
              (jsNumberOpt ((lookupMeta mId d.1).bind (fun m => m.year))).isNone)).map
            (fun d => ((d.2.filter (fun p => p.1 ∈ uni)).map (fun p => p.2)).sum)).sum := by
    intro ds
    induction ds with
    | nil => intro st _; simp
    | cons d rest ih =>
      intro st hids
      rw [List.foldl_cons]
      have hids2 : (applyDoc (getYearInfoV1 mId bs d.1).1 st d.2).1.map (fun r => r.id) = uni := by
        rw [applyDoc_ids, hids]
      rw [ih _ hids2]
      cases hu : jsNumberOpt ((lookupMeta mId d.1).bind (fun m => m.year)) with
      | none =>
        have hlab : (getYearInfoV1 mId bs d.1).1 = "Ukjent" := by
          simp [getYearInfoV1, hu]
        rw [hlab, getD_applyDoc_self, hids, List.filter_cons, if_pos (by simp [hu]),
          List.map_cons, List.sum_cons]
        omega
      | some y =>
        have hlab : (getYearInfoV1 mId bs d.1).1 ≠ "Ukjent" := by
          simp [getYearInfoV1, hu]
          exact mkLabel_ne_Ukjent _ _
        rw [getD_applyDoc_ne _ _ _ _ hlab, List.filter_cons, if_neg (by simp [hu])]
  rw [aux docs _ (initRows_ids uni)]
  simp [getD]

theorem sortedBins_pairwise (bins : List (String × Int)) :
    (sortByICmp (fun a b => a.2 - b.2) bins).Pairwise (fun a b => a.2 - b.2 ≤ 0) := by
  unfold sortByICmp
  exact pairwise_insertionSort_local _ _ (fun a _ b _ => by omega) (fun a _ b _ c _ => by omega)

theorem sortedBins_perm (bins : List (String × Int)) :
    (sortByICmp (fun a b => a.2 - b.2) bins).Perm bins := by
  unfold sortByICmp
  exact List.perm_insertionSort _ _

/-- Claim C7 (amended): in the first revision's pivoted table the "Ukjent"
(Unknown) bin carries the sentinel sortValue −1, so in the ascending label
order it is placed ahead of — before — every bin whose starting year is
nonnegative; and the Unknown bin is not excluded from the percentage
denominators: `yearTotals["Ukjent"]` accumulates exactly the in-universe
counts of every document without a usable year, and serves as the denominator
of the Unknown percent column. -/
theorem c7_unknown_bin (mId : MetaMap) (bs : Int) (uni : List String) (docs : EvalData) :
    (∀ lab sv, ("Ukjent", -1) ∈ yearBinsListV1 mId bs docs →
      (lab, sv) ∈ yearBinsListV1 mId bs docs → lab ≠ "Ukjent" → 0 ≤ sv →
      List.indexOf "Ukjent" (yearLabelsV1 mId bs docs) <
        List.indexOf lab (yearLabelsV1 mId bs docs)) ∧
    getD (yearTotalsV1 mId bs uni docs) "Ukjent" =
      ((docs.filter (fun d =>
          (jsNumberOpt ((lookupMeta mId d.1).bind (fun m => m.year))).isNone)).map
        (fun d => ((d.2.filter (fun p => p.1 ∈ uni)).map (fun p => p.2)).sum)).sum := by
  constructor
  · intro lab sv hU hm hne hsv
    unfold yearLabelsV1 yearLabelsOf
    apply indexOf_lt_of_pairwise_snd _ ?_ (sortedBins_pairwise _) "Ukjent" lab (-1) sv
      ((sortedBins_perm _).mem_iff.mpr hU) ((sortedBins_perm _).mem_iff.mpr hm)
      (by omega) (fun h => hne h.symm)
    have hperm := (sortedBins_perm (yearBinsListV1 mId bs docs)).map (fun p => p.1)
    rw [hperm.nodup_iff]
    exact yearBinsListV1_keys_nodup mId bs docs
  · exact yearTotalsV1_Ukjent mId bs uni docs

unseal Rat.mul Rat.sub Rat.add Rat.inv in
/-- Witness for C7 at a concrete input: with one year-less document (count 3)
and one 1990 document (count 2), "Ukjent" sits at position 0, ahead of the
"1990" column, and the Unknown denominator is 3. -/
theorem c7_witness :
    List.indexOf "Ukjent" (yearLabelsV1 exMeta 1 exData) <
      List.indexOf "1990" (yearLabelsV1 exMeta 1 exData) ∧
    getD (yearTotalsV1 exMeta 1 (topicUniverse exData) exData) "Ukjent" = 3 := by
  constructor
  · exact (c7_unknown_bin exMeta 1 (topicUniverse exData) exData).1 "1990" 1990
      (by decide) (by decide) (by decide) (by decide)
  · rw [(c7_unknown_bin exMeta 1 (topicUniverse exData) exData).2]
    decide

unseal Rat.mul Rat.sub Rat.add Rat.inv in
/-- Counterexample to C7 as stated: the "Ukjent" column is sorted ahead of the
numeric "1990" column (index 0 versus 1), and the Unknown bin's own total 3 is
a percentage denominator — the Unknown percent cell computes 3/3 (100%), so
the bin is not excluded from denominators. -/
theorem c7_counterexample :
    yearLabelsV1 exMeta 1 exData = ["Ukjent", "1990"] ∧
    getD (yearTotalsV1 exMeta 1 (topicUniverse exData) exData) "Ukjent" = 3 ∧
    percentSortValue (yearTotalsV1 exMeta 1 (topicUniverse exData) exData) "Ukjent"
      { id := "t", values := [("Ukjent", 3), ("1990", 2)], total := 5 } = 1 ∧
    (1 : Rat) ≠ 0 := by decide
